import Mathlib

/-!
Shallow embedding of the computational core of the `pvpc_next` Home Assistant
integration: the PVPC tariff-period classifier (`aiopvpc/pvpc_tariff.py`), the
price ranking engine (`sensor.py`), and the holiday selection pipeline
(`pvpc_holidays/core.py`).

Modelling conventions:
* a Python `datetime.date` is a `PyDate` (year, month, day); weekday arithmetic
  goes through the standard days-from-civil Gregorian algorithm, which agrees
  with CPython's `date.toordinal` on all proleptic-Gregorian dates;
* a local timestamp is an integer count of minutes since 1970-01-01T00:00
  (local clock); `epochDay` and `hourOf` recover `date()` and `.hour`;
* Python floats are idealised as rationals; Python's `round(x, 2)` becomes
  round-half-to-even at two decimals on rationals;
* a Python dict of prices is an association list of (timestamp, price) pairs
  in insertion order (`min` over a dict iterates items in that order);
* the per-year holiday set consulted by the classifier is abstracted as a
  boolean predicate on epoch days, since it is produced by a cached loader.
-/

namespace PvpcSpec

/-- Gregorian calendar date with the fields of Python's `datetime.date`. -/
structure PyDate where
  year : Int
  month : Int
  day : Int
deriving DecidableEq, Repr

/-- Days since 1970-01-01 of a Gregorian date (days-from-civil algorithm);
agrees with CPython's `date.toordinal () - 719163`. -/
def daysFromCivil (d : PyDate) : Int :=
  let y := if d.month ≤ 2 then d.year - 1 else d.year
  let era := y / 400
  let yoe := y - era * 400
  let mp := (d.month + 9) % 12
  let doy := (153 * mp + 2) / 5 + d.day - 1
  let doe := yoe * 365 + yoe / 4 - yoe / 100 + doy
  era * 146097 + doe - 719468

/-- Python `date.weekday ()`: Monday = 0 … Sunday = 6. -/
def pyWeekday (d : PyDate) : Int := (daysFromCivil d + 3) % 7

/-- Model of `_is_weekend` in `pvpc_holidays/core.py`: `day.weekday () >= 5`. -/
def isWeekend (d : PyDate) : Bool := decide (5 ≤ pyWeekday d)

/-! ## Tariff period classifier (`aiopvpc/pvpc_tariff.py`)

Local timestamps are minutes since the local epoch 1970-01-01T00:00. -/

/-- Day ordinal (`local_ts.date ()`) of a minute timestamp. -/
def epochDay (ts : Int) : Int := ts / 1440

/-- Hour of day (`local_ts.hour`) of a minute timestamp. -/
def hourOf (ts : Int) : Int := ts % 1440 / 60

/-- Python `date.isoweekday ()` of an epoch-day ordinal: Monday = 1 … Sunday = 7
(1970-01-01, day 0, was a Thursday). -/
def isoweekdayOfDay (d : Int) : Int := (d + 3) % 7 + 1

/-- Fixed peak-hour table `_PRICE_HOURS_P1_PCB` (mainland / Balearic / Canary). -/
def PRICE_HOURS_P1_PCB : List Int := [10, 11, 12, 13, 18, 19, 20, 21]

/-- Fixed shoulder-hour table `_PRICE_HOURS_P2_PCB`. -/
def PRICE_HOURS_P2_PCB : List Int := [8, 9, 14, 15, 16, 17, 22, 23]

/-- Fixed peak-hour table `_PRICE_HOURS_P1_CYM` (Ceuta / Melilla). -/
def PRICE_HOURS_P1_CYM : List Int := [11, 12, 13, 14, 19, 20, 21, 22]

/-- Fixed shoulder-hour table `_PRICE_HOURS_P2_CYM`. -/
def PRICE_HOURS_P2_CYM : List Int := [8, 9, 10, 15, 16, 17, 18, 23]

/-- Price period for a local (day, hour) pair, following `_price_period_key`.
The holiday set is the (cached) national-holiday predicate on epoch days. -/
def periodFromDayHour (day hour : Int) (zoneCeutaMelilla : Bool)
    (holidays : Int → Bool) : String :=
  if isoweekdayOfDay day ≥ 6 ∨ hour < 8 then "P3"
  else if holidays day then "P3"
  else if zoneCeutaMelilla = true ∧ hour ∈ PRICE_HOURS_P2_CYM then "P2"
  else if zoneCeutaMelilla = false ∧ hour ∈ PRICE_HOURS_P2_PCB then "P2"
  else if zoneCeutaMelilla = true ∧ hour ∈ PRICE_HOURS_P1_CYM then "P1"
  else if zoneCeutaMelilla = false ∧ hour ∈ PRICE_HOURS_P1_PCB then "P1"
  else "P2"

/-- Model of `_price_period_key`: it reads only `local_ts.date ()` and
`local_ts.hour` from the timestamp. -/
def pricePeriodKey (ts : Int) (zone : Bool) (holidays : Int → Bool) : String :=
  periodFromDayHour (epochDay ts) (hourOf ts) zone holidays

/-- Power period for a local (day, hour) pair, following `_power_period_key`. -/
def powerFromDayHour (day hour : Int) (holidays : Int → Bool) : String :=
  if isoweekdayOfDay day ≥ 6 ∨ hour < 8 then "P3"
  else if holidays day then "P3"
  else "P1"

/-- Model of `_power_period_key` (the zone flag is unused in the source). -/
def powerPeriodKey (ts : Int) (holidays : Int → Bool) : String :=
  powerFromDayHour (epochDay ts) (hourOf ts) holidays

/-- Hour-by-hour scan of the `while` loop in
`get_current_and_next_price_periods`: starting at step `k`, look for the first
hourly step whose label differs from `cur`, with explicit fuel (the Python
loop is unbounded; the spec's invariant bound is 366 steps). Returns the new
label and the elapsed minutes, or `none` if the bound is exhausted. -/
def scanNext (f : Int → String) (t : Int) (cur : String) :
    Nat → Int → Option (String × Int)
  | 0, _ => none
  | Nat.succ fuel, k =>
    let nxt := f (t + 60 * k)
    if nxt = cur then scanNext f t cur fuel (k + 1) else some (nxt, 60 * k)

/-- Model of `get_current_and_next_price_periods`, with the scan bounded at
the spec's 366 hourly steps; `none` models the scan exceeding that bound. -/
def getCurrentAndNextPricePeriods (ts : Int) (zone : Bool)
    (holidays : Int → Bool) : Option (String × String × Int) :=
  let cur := pricePeriodKey ts zone holidays
  match scanNext (fun s => pricePeriodKey s zone holidays) ts cur 366 1 with
  | some (nxt, delta) => some (cur, nxt, delta)
  | none => none

/-- Model of `get_current_and_next_power_periods`, bounded like the price scan. -/
def getCurrentAndNextPowerPeriods (ts : Int) (_zone : Bool)
    (holidays : Int → Bool) : Option (String × String × Int) :=
  let cur := powerPeriodKey ts holidays
  match scanNext (fun s => powerPeriodKey s holidays) ts cur 366 1 with
  | some (nxt, delta) => some (cur, nxt, delta)
  | none => none

/-- Minute timestamp of a local date at a given wall-clock hour and minute. -/
def localTs (d : PyDate) (h m : Int) : Int := 1440 * daysFromCivil d + 60 * h + m

/-! ## Price ranking engine (`sensor.py`)

Prices are rationals; a price series is the item list of the Python dict,
with timestamps in minutes (UTC).  `off` is the local-timezone offset in
minutes, so `ts.astimezone (local_tz).date ()` is `epochDay (ts + off)`. -/

/-- Floor of a rational (Python's float→int floor, exact on rationals). -/
def ratFloor (q : ℚ) : Int := q.num / (q.den : Int)

/-- Round a rational to the nearest integer, ties to even, modelling Python's
banker's rounding in `round`. -/
def roundHalfEven (q : ℚ) : Int :=
  let f := ratFloor q
  let r := q - (f : ℚ)
  if r < 1/2 then f else if 1/2 < r then f + 1 else if f % 2 = 0 then f else f + 1

/-- Model of Python's `round (x, 2)` on the rational idealisation of floats. -/
def round2 (q : ℚ) : ℚ := (roundHalfEven (q * 100) : ℚ) / 100

/-- Model of `_price_range_for_timestamp`: min and max price over all entries
on the same local calendar day as `ts`, or `none` if that day has no entry. -/
def priceRangeForTimestamp (prices : List (Int × ℚ)) (off ts : Int) :
    Option (ℚ × ℚ) :=
  let targetDate := epochDay (ts + off)
  let pricesForDate := prices.filterMap fun up =>
    if epochDay (up.1 + off) = targetDate then some up.2 else none
  match pricesForDate with
  | [] => none
  | p :: rest => some (rest.foldl min p, rest.foldl max p)

/-- Model of `_price_ratio_for_timestamp`: the price's normalised position in
its day's [min, max] range, rounded to two decimals; 0.6 on a flat day. -/
def priceRatioForTimestamp (prices : List (Int × ℚ)) (off ts : Int) (price : ℚ) :
    Option ℚ :=
  match priceRangeForTimestamp prices off ts with
  | none => none
  | some (minPrice, maxPrice) =>
    if maxPrice = minPrice then some (6/10)
    else some (round2 ((price - minPrice) / (maxPrice - minPrice)))

/-- Better-price target levels accepted by `_PRICE_LEVEL_TARGET_MAX`. -/
inductive Target where
  | very_cheap
  | cheap
  | neutral
deriving DecidableEq, Repr

/-- Maximum acceptable day-ratio for each target (`_PRICE_LEVEL_TARGET_MAX`). -/
def targetMaxRatio : Target → ℚ
  | .very_cheap => 2/10
  | .cheap => 4/10
  | .neutral => 6/10

/-- Future entries of the series paired with their day ratio (the comprehension
building `fallback_candidates` in `_next_target_price`). -/
def futureWithRatio (prices : List (Int × ℚ)) (now off : Int) :
    List (Int × ℚ × ℚ) :=
  prices.filterMap fun tp =>
    if now < tp.1 then
      match priceRatioForTimestamp prices off tp.1 tp.2 with
      | some r => some (tp.1, tp.2, r)
      | none => none
    else none

/-- Future entries whose day ratio is at most `maxRatio` (the comprehension
building `candidates` in `_next_target_price`). -/
def targetCandidates (prices : List (Int × ℚ)) (now off : Int) (maxRatio : ℚ) :
    List (Int × ℚ × ℚ) :=
  prices.filterMap fun tp =>
    if now < tp.1 then
      match priceRatioForTimestamp prices off tp.1 tp.2 with
      | some r => if r ≤ maxRatio then some (tp.1, tp.2, r) else none
      | none => none
    else none

/-- Python's `min (xs, key=lambda item: item[0])` over a nonempty candidate
list: first entry with the smallest timestamp. -/
def minByTs (x : Int × ℚ × ℚ) (xs : List (Int × ℚ × ℚ)) : Int × ℚ × ℚ :=
  xs.foldl (fun acc y => if y.1 < acc.1 then y else acc) x

/-- Strict lexicographic (price, timestamp) comparison of candidates, the key
order of `min (xs, key=lambda item: (item[1], item[0]))`. -/
def priceTsLt (a b : Int × ℚ × ℚ) : Prop :=
  a.2.1 < b.2.1 ∨ (a.2.1 = b.2.1 ∧ a.1 < b.1)

instance : DecidableRel priceTsLt := fun a b => by
  unfold priceTsLt
  infer_instance

/-- Non-strict lexicographic (price, timestamp) comparison. -/
def priceTsLe (a b : Int × ℚ × ℚ) : Prop :=
  a.2.1 < b.2.1 ∨ (a.2.1 = b.2.1 ∧ a.1 ≤ b.1)

/-- Python's `min (xs, key=lambda item: (item[1], item[0]))`: first entry with
the lexicographically smallest (price, timestamp). -/
def minByPriceTs (x : Int × ℚ × ℚ) (xs : List (Int × ℚ × ℚ)) : Int × ℚ × ℚ :=
  xs.foldl (fun acc y => if priceTsLt y acc then y else acc) x

/-- Model of `_next_target_price`.  `maxRatio` is the result of the
`_PRICE_LEVEL_TARGET_MAX` lookup (`none` for an unknown target, in which case
the filtered candidate list stays empty and only the fallback can fire). -/
def nextTargetPrice (prices : List (Int × ℚ)) (now : Int) (maxRatio : Option ℚ)
    (off : Int) : Option (Int × ℚ × ℚ) :=
  if prices = [] then none
  else
    let cands := match maxRatio with
      | some m => targetCandidates prices now off m
      | none => []
    match cands with
    | c :: cs => some (minByTs c cs)
    | [] =>
      match futureWithRatio prices now off with
      | [] => none
      | f :: fs => some (minByPriceTs f fs)

/-! ## Holiday pipeline (`pvpc_holidays/core.py`)

Text handling is modelled over the character repertoire the feed uses:
NFKD decomposition followed by dropping combining marks and lowercasing acts
on each Latin-1 letter independently, so it is a per-character fold here. -/

/-- Per-character effect of `unicodedata.normalize ("NFKD", ·)`, dropping the
combining marks and lowercasing, for the Spanish/Latin-1 repertoire. -/
def charFold (c : Char) : Char :=
  if c = 'Á' ∨ c = 'á' then 'a'
  else if c = 'É' ∨ c = 'é' then 'e'
  else if c = 'Í' ∨ c = 'í' then 'i'
  else if c = 'Ó' ∨ c = 'ó' then 'o'
  else if c = 'Ú' ∨ c = 'ú' ∨ c = 'Ü' ∨ c = 'ü' then 'u'
  else if c = 'Ñ' ∨ c = 'ñ' then 'n'
  else if 'A' ≤ c ∧ c ≤ 'Z' then Char.ofNat (c.toNat + 32)
  else c

/-- Whitespace recognised by Python's `str.split ()` (ASCII fragment). -/
def isPyWs (c : Char) : Bool := c = ' ' ∨ c = '\t' ∨ c = '\n' ∨ c = '\r'

/-- Python `str.split ()`: maximal runs of non-whitespace characters. -/
def pyWords : List Char → List Char → List (List Char)
  | [], acc => if acc = [] then [] else [acc.reverse]
  | c :: cs, acc =>
    if isPyWs c then
      if acc = [] then pyWords cs [] else acc.reverse :: pyWords cs []
    else pyWords cs (c :: acc)

/-- Python `" ".join (words)`. -/
def joinSpaces (ws : List (List Char)) : List Char :=
  (ws.intersperse [' ']).flatten

/-- Model of `_normalize`: NFKD-fold, lowercase, collapse whitespace runs. -/
def pyNormalize (s : String) : String :=
  ⟨joinSpaces (pyWords (s.data.map charFold) [])⟩

/-- Python `" ".join (name.split ())`: whitespace collapse without folding. -/
def collapseWs (s : String) : String := ⟨joinSpaces (pyWords s.data [])⟩

/-- Python `str.strip ()` (ASCII whitespace fragment). -/
def pyStrip (s : String) : String :=
  ⟨((s.data.dropWhile isPyWs).reverse.dropWhile isPyWs).reverse⟩

/-- The `_CANONICAL_NAME_MAP` table. -/
def CANONICAL_NAME_MAP : List (String × String) :=
  [("ano nuevo", "Año Nuevo"),
   ("epifania del senor", "Epifanía del Señor"),
   ("viernes santo", "Viernes Santo"),
   ("fiesta del trabajo", "Fiesta del Trabajo"),
   ("asuncion de la virgen", "Asunción de la Virgen"),
   ("fiesta nacional de espana", "Fiesta Nacional de España"),
   ("todos los santos", "Todos los Santos"),
   ("dia de la constitucion", "Día de la Constitución"),
   ("dia de la constitucion espanola", "Día de la Constitución"),
   ("inmaculada concepcion", "Inmaculada Concepción"),
   ("natividad del senor", "Natividad del Señor")]

/-- Model of `_canonicalize_holiday_name`. -/
def canonicalizeHolidayName (name : String) : String :=
  match CANONICAL_NAME_MAP.lookup (pyNormalize name) with
  | some canonical => canonical
  | none => collapseWs name

/-- Raw holiday entry (`HolidayRecord` dataclass). -/
structure HolidayRecord where
  day : PyDate
  description : String
  holidayType : String
  province : String
  locality : String
deriving DecidableEq, Repr

/-- Numeric value of a digit run, or `none` if empty or not all digits. -/
def digitsToNat : List Char → Option Nat
  | [] => none
  | cs =>
    if cs.all (fun c => '0' ≤ c ∧ c ≤ '9') then
      some (cs.foldl (fun n c => 10 * n + (c.toNat - '0'.toNat)) 0)
    else none

/-- Number of days in a Gregorian month. -/
def daysInMonth (year month : Int) : Int :=
  if month = 2 then
    if year % 4 = 0 ∧ (year % 100 ≠ 0 ∨ year % 400 = 0) then 29 else 28
  else if month = 4 ∨ month = 6 ∨ month = 9 ∨ month = 11 then 30
  else 31

/-- Split a character list at every occurrence of the separator. -/
def splitOnChar (sep : Char) : List Char → List Char → List (List Char)
  | [], acc => [acc.reverse]
  | c :: cs, acc =>
    if c = sep then acc.reverse :: splitOnChar sep cs []
    else splitOnChar sep cs (c :: acc)

/-- Model of `datetime.strptime (raw, "%d-%m-%Y").date ()`: day and month of
one or two digits, a four-digit year, and calendar validity, else `none`. -/
def parseDateDDMMYYYY (s : String) : Option PyDate :=
  match splitOnChar '-' s.data [] with
  | [ds, ms, ys] =>
    match digitsToNat ds, digitsToNat ms, digitsToNat ys with
    | some dv, some mv, some yv =>
      if ds.length ≤ 2 ∧ ms.length ≤ 2 ∧ ys.length = 4 ∧
          1 ≤ yv ∧ 1 ≤ mv ∧ mv ≤ 12 ∧ 1 ≤ dv ∧
          (dv : Int) ≤ daysInMonth (yv : Int) (mv : Int) then
        some ⟨(yv : Int), (mv : Int), (dv : Int)⟩
      else none
    | _, _, _ => none
  | _ => none

/-- A CSV row after `csv.DictReader`: column name to cell value. -/
abbrev Row : Type := List (String × String)

/-- Python's `(row.get (key) or "")`. -/
def rowGet (row : Row) (key : String) : String :=
  match List.lookup key row with
  | some v => v
  | none => ""

/-- The five required CSV columns. -/
def REQUIRED_COLUMNS : List String :=
  ["FECHA", "DESCRIPCION", "TIPO", "PROVINCIA", "LOCALIDAD"]

/-- Per-row body of the `parse_holiday_csv` loop: `none` when the row is
discarded (missing or blank date/description, or unparseable date). -/
def rowToRecord (row : Row) : Option HolidayRecord :=
  let rawDate := pyStrip (rowGet row "FECHA")
  let sourceDescription := pyStrip (rowGet row "DESCRIPCION")
  if rawDate = "" ∨ sourceDescription = "" then none
  else
    match parseDateDDMMYYYY rawDate with
    | none => none
    | some parsedDay =>
      some
        { day := parsedDay
          description := canonicalizeHolidayName sourceDescription
          holidayType := pyStrip (rowGet row "TIPO")
          province := pyStrip (rowGet row "PROVINCIA")
          locality := pyStrip (rowGet row "LOCALIDAD") }

/-- The record-accumulating loop of `parse_holiday_csv`. -/
def collectRecords : List Row → List HolidayRecord
  | [] => []
  | row :: rest =>
    match rowToRecord row with
    | none => collectRecords rest
    | some record => record :: collectRecords rest

/-- Model of `parse_holiday_csv` after `csv.DictReader` tokenisation: the
header's field names plus the data rows.  `Except.error` models raising
`PVPCError` (the spec's `DataSourceError`). -/
def parseHolidayCsv (fieldnames : List String) (rows : List Row) :
    Except String (List HolidayRecord) :=
  if REQUIRED_COLUMNS.filter (fun c => ¬ c ∈ fieldnames) ≠ [] then
    Except.error "CSV header is incomplete"
  else
    match collectRecords rows with
    | [] => Except.error "No valid holidays found in CSV"
    | records => Except.ok records

/-! ## PVPC holiday selector (`select_pvpc_holidays`) -/

/-- Lexicographic comparison of character lists by code point, Python's string
ordering. -/
def charListLe : List Char → List Char → Bool
  | [], _ => true
  | _ :: _, [] => false
  | a :: as, b :: bs =>
    if a < b then true else if a = b then charListLe as bs else false

/-- Python string `<=`, by code points. -/
def strLe (a b : String) : Bool := charListLe a.data b.data

/-- Python `date` strict order: lexicographic on (year, month, day). -/
def dateLtB (a b : PyDate) : Bool :=
  if a.year ≠ b.year then decide (a.year < b.year)
  else if a.month ≠ b.month then decide (a.month < b.month)
  else decide (a.day < b.day)

/-- Python `date` order, non-strict. -/
def dateLeB (a b : PyDate) : Bool := if a = b then true else dateLtB a b

/-- The sort key `(item.day, item.description)` used by `select_pvpc_holidays`,
compared as Python compares tuples. -/
def keyLe (p q : PyDate × String) : Prop :=
  (if p.1 = q.1 then strLe p.2 q.2 else dateLtB p.1 q.1) = true

instance : DecidableRel keyLe := fun p q => by
  unfold keyLe
  infer_instance

/-- Record comparison underlying `sorted (records, key=(day, description))`. -/
def recLe (a b : HolidayRecord) : Prop :=
  keyLe (a.day, a.description) (b.day, b.description)

instance : DecidableRel recLe := fun a b => by
  unfold recLe
  infer_instance

/-- Membership test `record.day in selected` on the insertion-ordered map. -/
def hasDay (selected : List (PyDate × String)) (d : PyDate) : Bool :=
  selected.any fun p => p.1 = d

/-- The per-record filtering loop of `select_pvpc_holidays`, fed with the
(day, description) projections of the sorted records; the accumulator is the
insertion-ordered `selected` dict. -/
def selectLoop (year : Int) :
    List (PyDate × String) → List (PyDate × String) → List (PyDate × String)
  | [], selected => selected
  | (d, desc) :: rest, selected =>
    if d.year ≠ year then selectLoop year rest selected
    else if isWeekend d then selectLoop year rest selected
    else if pyNormalize desc = "viernes santo" then selectLoop year rest selected
    else if hasDay selected d then selectLoop year rest selected
    else selectLoop year rest (selected ++ [(d, desc)])

/-- The `FIXED_HOLIDAYS` table: (month, day, description). -/
def FIXED_HOLIDAYS : List (Int × Int × String) :=
  [(11, 1, "Todos los Santos"), (12, 6, "Día de la Constitución")]

/-- The `NEXT_YEAR_FIXED_HOLIDAYS` table. -/
def NEXT_YEAR_FIXED_HOLIDAYS : List (Int × Int × String) :=
  [(1, 1, "Año Nuevo"), (1, 6, "Epifanía del Señor")]

/-- One fixed-date insertion loop of `select_pvpc_holidays`: skip weekends,
keep an existing entry, otherwise append. -/
def addFixedList (year : Int) (fixed : List (Int × Int × String))
    (selected : List (PyDate × String)) : List (PyDate × String) :=
  fixed.foldl
    (fun acc md =>
      let fixedDay : PyDate := ⟨year, md.1, md.2.1⟩
      if isWeekend fixedDay then acc
      else if hasDay acc fixedDay then acc
      else acc ++ [(fixedDay, md.2.2)])
    selected

/-- Comparison by date only, for the final `sorted (selected.items (),
key=item[0])`. -/
def itemDateLe (p q : PyDate × String) : Prop := dateLeB p.1 q.1 = true

instance : DecidableRel itemDateLe := fun p q => by
  unfold itemDateLe
  infer_instance

/-- Model of `select_pvpc_holidays`: sort by (date, description), filter and
deduplicate, add the fixed and next-year fixed dates, and return the map
sorted by date (as its insertion-ordered item list). -/
def selectPvpcHolidays (records : List HolidayRecord) (year : Int) :
    List (PyDate × String) :=
  let sortedRecords := List.insertionSort recLe records
  let selected := selectLoop year
    (sortedRecords.map fun r => (r.day, r.description)) []
  let withFixed := addFixedList year FIXED_HOLIDAYS selected
  let withNextYear := addFixedList (year + 1) NEXT_YEAR_FIXED_HOLIDAYS withFixed
  List.insertionSort itemDateLe withNextYear

/-- Spec-side notion of a valid CSV row: non-blank date and description after
stripping, with the date parseable as DD-MM-YYYY. -/
def validRow (row : Row) : Bool :=
  pyStrip (rowGet row "FECHA") ≠ "" ∧ pyStrip (rowGet row "DESCRIPCION") ≠ "" ∧
    (parseDateDDMMYYYY (pyStrip (rowGet row "FECHA"))).isSome

/-- Example CSV input of spec §8: one malformed row (bad date) and three valid
rows. -/
def exampleRows : List Row :=
  [[("FECHA", "31-02-2024"), ("DESCRIPCION", "Bad Row"), ("TIPO", "Nacional"),
    ("PROVINCIA", ""), ("LOCALIDAD", "")],
   [("FECHA", "01-01-2024"), ("DESCRIPCION", "Año Nuevo"), ("TIPO", "Nacional"),
    ("PROVINCIA", ""), ("LOCALIDAD", "")],
   [("FECHA", "01-05-2024"), ("DESCRIPCION", "Fiesta del Trabajo"),
    ("TIPO", "Nacional"), ("PROVINCIA", ""), ("LOCALIDAD", "")],
   [("FECHA", "12-10-2024"), ("DESCRIPCION", "Fiesta Nacional de España"),
    ("TIPO", "Nacional"), ("PROVINCIA", ""), ("LOCALIDAD", "")]]

/-- The three records the loader extracts from `exampleRows`. -/
def exampleRecords : List HolidayRecord :=
  [⟨⟨2024, 1, 1⟩, "Año Nuevo", "Nacional", "", ""⟩,
   ⟨⟨2024, 5, 1⟩, "Fiesta del Trabajo", "Nacional", "", ""⟩,
   ⟨⟨2024, 10, 12⟩, "Fiesta Nacional de España", "Nacional", "", ""⟩]

/-! ## Order lemmas for the selector's sort keys -/

theorem charListLe_total : ∀ a b : List Char,
    charListLe a b = true ∨ charListLe b a = true
  | [], _ => Or.inl rfl
  | _ :: _, [] => Or.inr rfl
  | a :: as, b :: bs => by
    rcases lt_trichotomy a b with h | h | h
    · left; simp [charListLe, h]
    · subst h
      rcases charListLe_total as bs with ih | ih <;>
        simp [charListLe, ih, lt_irrefl]
    · right; simp [charListLe, h]

theorem charListLe_trans : ∀ a b c : List Char,
    charListLe a b = true → charListLe b c = true → charListLe a c = true
  | [], _, _, _, _ => rfl
  | _ :: _, [], _, h, _ => by simp [charListLe] at h
  | _ :: _, _ :: _, [], _, h => by simp [charListLe] at h
  | a :: as, b :: bs, c :: cs, hab, hbc => by
    simp only [charListLe] at hab hbc ⊢
    rcases lt_trichotomy a b with h1 | h1 | h1
    · rcases lt_trichotomy b c with h2 | h2 | h2
      · simp [lt_trans h1 h2]
      · subst h2
        simp [h1]
      · exfalso
        simp [h2.asymm, h2.ne'] at hbc
    · subst h1
      rcases lt_trichotomy a c with h2 | h2 | h2
      · simp [h2]
      · subst h2
        simp only [lt_irrefl, if_false, if_pos rfl] at hab hbc ⊢
        exact charListLe_trans as bs cs hab hbc
      · exfalso
        simp [h2.asymm, h2.ne'] at hbc
    · exfalso
      simp [h1.asymm, h1.ne'] at hab

theorem charListLe_antisymm : ∀ a b : List Char,
    charListLe a b = true → charListLe b a = true → a = b
  | [], [], _, _ => rfl
  | [], _ :: _, _, h => by simp [charListLe] at h
  | _ :: _, [], h, _ => by simp [charListLe] at h
  | a :: as, b :: bs, hab, hba => by
    simp only [charListLe] at hab hba
    rcases lt_trichotomy a b with h1 | h1 | h1
    · exfalso
      simp [h1.asymm, h1.ne'] at hba
    · subst h1
      simp only [lt_irrefl, if_false, if_pos rfl] at hab hba
      rw [charListLe_antisymm as bs hab hba]
    · exfalso
      simp [h1.asymm, h1.ne'] at hab

theorem strLe_total (a b : String) : strLe a b = true ∨ strLe b a = true :=
  charListLe_total a.data b.data

theorem strLe_trans {a b c : String} (hab : strLe a b = true)
    (hbc : strLe b c = true) : strLe a c = true :=
  charListLe_trans a.data b.data c.data hab hbc

theorem strLe_antisymm {a b : String} (hab : strLe a b = true)
    (hba : strLe b a = true) : a = b := by
  cases a with
  | mk da =>
    cases b with
    | mk db =>
      have := charListLe_antisymm da db hab hba
      simp_all

theorem dateLtB_iff (a b : PyDate) : dateLtB a b = true ↔
    (a.year < b.year ∨ (a.year = b.year ∧
      (a.month < b.month ∨ (a.month = b.month ∧ a.day < b.day)))) := by
  unfold dateLtB
  split_ifs <;> simp_all <;> omega

theorem pyDate_ext {a b : PyDate} (hy : a.year = b.year) (hm : a.month = b.month)
    (hd : a.day = b.day) : a = b := by
  cases a; cases b; simp_all

theorem dateLtB_trans {a b c : PyDate} (hab : dateLtB a b = true)
    (hbc : dateLtB b c = true) : dateLtB a c = true := by
  rw [dateLtB_iff] at *
  omega

theorem dateLtB_trichotomy (a b : PyDate) (hne : a ≠ b) :
    dateLtB a b = true ∨ dateLtB b a = true := by
  rw [dateLtB_iff, dateLtB_iff]
  by_contra hcon
  push_neg at hcon
  exact hne (pyDate_ext (by omega) (by omega) (by omega))

theorem dateLtB_asymm {a b : PyDate} (hab : dateLtB a b = true) :
    ¬ dateLtB b a = true := by
  rw [dateLtB_iff] at *
  omega

theorem dateLtB_irrefl (a : PyDate) : ¬ dateLtB a a = true := by
  rw [dateLtB_iff]
  omega

instance : IsTotal (PyDate × String) keyLe where
  total p q := by
    unfold keyLe
    by_cases h : p.1 = q.1
    · rw [if_pos h, if_pos h.symm]
      exact strLe_total p.2 q.2
    · rw [if_neg h, if_neg (fun hh => h hh.symm)]
      exact dateLtB_trichotomy p.1 q.1 h

instance : IsTrans (PyDate × String) keyLe where
  trans p q r hpq hqr := by
    unfold keyLe at *
    by_cases h1 : p.1 = q.1 <;> by_cases h2 : q.1 = r.1
    · rw [if_pos h1] at hpq
      rw [if_pos h2] at hqr
      rw [if_pos (h1.trans h2)]
      exact strLe_trans hpq hqr
    · rw [if_pos h1] at hpq
      rw [if_neg h2] at hqr
      have hne : ¬ p.1 = r.1 := by
        rw [h1]
        exact h2
      rw [if_neg hne, h1]
      exact hqr
    · rw [if_neg h1] at hpq
      rw [if_pos h2] at hqr
      have hne : ¬ p.1 = r.1 := by
        rw [← h2]
        exact h1
      rw [if_neg hne, ← h2]
      exact hpq
    · rw [if_neg h1] at hpq
      rw [if_neg h2] at hqr
      by_cases h3 : p.1 = r.1
      · exfalso
        have htr := dateLtB_trans hpq hqr
        rw [h3] at htr
        exact absurd htr (dateLtB_irrefl r.1)
      · rw [if_neg h3]
        exact dateLtB_trans hpq hqr

instance : IsAntisymm (PyDate × String) keyLe where
  antisymm p q hpq hqp := by
    unfold keyLe at hpq hqp
    by_cases h : p.1 = q.1
    · rw [if_pos h] at hpq
      rw [if_pos h.symm] at hqp
      obtain ⟨p1, p2⟩ := p
      obtain ⟨q1, q2⟩ := q
      simp only at h hpq hqp
      rw [h, strLe_antisymm hpq hqp]
    · rw [if_neg h] at hpq
      rw [if_neg (fun hh => h hh.symm)] at hqp
      exact absurd hqp (dateLtB_asymm hpq)

instance : IsTotal HolidayRecord recLe where
  total a b := IsTotal.total (r := keyLe) _ _

instance : IsTrans HolidayRecord recLe where
  trans a b c hab hbc := IsTrans.trans (r := keyLe) _ _ _ hab hbc

/-! ## Selector: order independence (C6) -/

theorem selectKeys_sorted (l : List HolidayRecord) :
    List.Sorted keyLe
      ((List.insertionSort recLe l).map fun r => (r.day, r.description)) :=
  List.Pairwise.map _ (fun _ _ h => h) (List.sorted_insertionSort recLe l)

theorem selectKeys_perm {l₁ l₂ : List HolidayRecord} (h : l₁.Perm l₂) :
    ((List.insertionSort recLe l₁).map fun r => (r.day, r.description)).Perm
      ((List.insertionSort recLe l₂).map fun r => (r.day, r.description)) :=
  List.Perm.map _
    ((List.perm_insertionSort recLe l₁).trans
      (h.trans (List.perm_insertionSort recLe l₂).symm))

theorem selectKeys_eq {l₁ l₂ : List HolidayRecord} (h : l₁.Perm l₂) :
    (List.insertionSort recLe l₁).map (fun r => (r.day, r.description)) =
      (List.insertionSort recLe l₂).map (fun r => (r.day, r.description)) :=
  List.eq_of_perm_of_sorted (selectKeys_perm h) (selectKeys_sorted l₁)
    (selectKeys_sorted l₂)

/-! ## Selector: invariants (C7) -/

theorem selectLoop_inv (year : Int) :
    ∀ (keys : List (PyDate × String)) (acc : List (PyDate × String)),
      (∀ p ∈ acc, isWeekend p.1 = false ∧ p.2 ≠ "Viernes Santo") →
      ∀ p ∈ selectLoop year keys acc,
        isWeekend p.1 = false ∧ p.2 ≠ "Viernes Santo"
  | [], _, hacc => hacc
  | (d, desc) :: rest, acc, hacc => by
    unfold selectLoop
    split_ifs with h1 h2 h3 h4
    · exact selectLoop_inv year rest acc hacc
    · exact selectLoop_inv year rest acc hacc
    · exact selectLoop_inv year rest acc hacc
    · exact selectLoop_inv year rest acc hacc
    · apply selectLoop_inv year rest
      intro p hp
      rcases List.mem_append.mp hp with hp | hp
      · exact hacc p hp
      · rcases List.mem_singleton.mp hp with rfl
        refine ⟨by simpa using h2, fun hdesc => h3 ?_⟩
        simp only at hdesc
        rw [hdesc]
        decide

theorem addFixedList_cons (year : Int) (md : Int × Int × String)
    (rest : List (Int × Int × String)) (acc : List (PyDate × String)) :
    addFixedList year (md :: rest) acc =
      addFixedList year rest
        (if isWeekend ⟨year, md.1, md.2.1⟩ then acc
         else if hasDay acc ⟨year, md.1, md.2.1⟩ then acc
         else acc ++ [(⟨year, md.1, md.2.1⟩, md.2.2)]) := rfl

theorem addFixedList_nil (year : Int) (acc : List (PyDate × String)) :
    addFixedList year [] acc = acc := rfl

theorem addFixedList_mono (year : Int) :
    ∀ (fixed : List (Int × Int × String)) (acc : List (PyDate × String))
      (p : PyDate × String), p ∈ acc → p ∈ addFixedList year fixed acc
  | [], _, _, hp => hp
  | md :: rest, acc, p, hp => by
    rw [addFixedList_cons]
    apply addFixedList_mono year rest
    split_ifs <;> simp [hp]

theorem addFixedList_inv (year : Int) :
    ∀ (fixed : List (Int × Int × String)) (acc : List (PyDate × String)),
      (∀ md ∈ fixed, md.2.2 ≠ "Viernes Santo") →
      (∀ p ∈ acc, isWeekend p.1 = false ∧ p.2 ≠ "Viernes Santo") →
      ∀ p ∈ addFixedList year fixed acc,
        isWeekend p.1 = false ∧ p.2 ≠ "Viernes Santo"
  | [], _, _, hacc => hacc
  | md :: rest, acc, hfix, hacc => by
    rw [addFixedList_cons]
    apply addFixedList_inv year rest _ (fun q hq => hfix q (List.mem_cons_of_mem _ hq))
    split_ifs with h1 h2
    · exact hacc
    · exact hacc
    · intro p hp
      rcases List.mem_append.mp hp with hp | hp
      · exact hacc p hp
      · rcases List.mem_singleton.mp hp with rfl
        exact ⟨by simpa using h1, hfix md (List.mem_cons_self md rest)⟩

theorem hasDay_exists {acc : List (PyDate × String)} {d : PyDate}
    (h : hasDay acc d = true) : ∃ s, (d, s) ∈ acc := by
  unfold hasDay at h
  rcases List.any_eq_true.mp h with ⟨⟨pd, ps⟩, hp, hpd⟩
  simp only [decide_eq_true_eq] at hpd
  subst hpd
  exact ⟨ps, hp⟩

theorem addFixed_step_mem (year m dd : Int) (desc : String)
    (acc : List (PyDate × String)) (hw : isWeekend ⟨year, m, dd⟩ = false) :
    ∃ s, ((⟨year, m, dd⟩ : PyDate), s) ∈
      (if isWeekend (⟨year, m, dd⟩ : PyDate) then acc
       else if hasDay acc ⟨year, m, dd⟩ then acc
       else acc ++ [((⟨year, m, dd⟩ : PyDate), desc)]) := by
  rw [hw]
  simp only [Bool.false_eq_true, if_false]
  by_cases hd : hasDay acc ⟨year, m, dd⟩
  · rw [if_pos hd]
    exact hasDay_exists hd
  · rw [if_neg hd]
    exact ⟨desc, List.mem_append.mpr (Or.inr (List.mem_singleton_self _))⟩

theorem addNextYear_mem (year : Int) (acc : List (PyDate × String)) :
    (isWeekend ⟨year, 1, 1⟩ = false →
      ∃ s, ((⟨year, 1, 1⟩ : PyDate), s) ∈
        addFixedList year NEXT_YEAR_FIXED_HOLIDAYS acc) ∧
    (isWeekend ⟨year, 1, 6⟩ = false →
      ∃ s, ((⟨year, 1, 6⟩ : PyDate), s) ∈
        addFixedList year NEXT_YEAR_FIXED_HOLIDAYS acc) := by
  constructor
  · intro hw
    show ∃ s, _ ∈ addFixedList year ((1, 1, "Año Nuevo") ::
      [(1, 6, "Epifanía del Señor")]) acc
    rw [addFixedList_cons]
    rcases addFixed_step_mem year 1 1 "Año Nuevo" acc hw with ⟨s, hs⟩
    exact ⟨s, addFixedList_mono year _ _ _ hs⟩
  · intro hw
    show ∃ s, _ ∈ addFixedList year ((1, 1, "Año Nuevo") ::
      [(1, 6, "Epifanía del Señor")]) acc
    rw [addFixedList_cons]
    rw [show ([(1, 6, "Epifanía del Señor")] :
      List (Int × Int × String)) = (1, 6, "Epifanía del Señor") :: [] from rfl]
    rw [addFixedList_cons]
    rw [addFixedList_nil]
    exact addFixed_step_mem year 1 6 "Epifanía del Señor" _ hw

/-- C6: `select_pvpc_holidays` is a pure function of the multiset of input
records and the year: permuting the record list never changes the resulting
date-to-description map, because the records are sorted by (date, description)
before the first-wins deduplication. -/
theorem claim_C6 (l₁ l₂ : List HolidayRecord) (year : Int) (h : l₁.Perm l₂) :
    selectPvpcHolidays l₁ year = selectPvpcHolidays l₂ year := by
  show List.insertionSort itemDateLe
      (addFixedList (year + 1) NEXT_YEAR_FIXED_HOLIDAYS
        (addFixedList year FIXED_HOLIDAYS
          (selectLoop year
            ((List.insertionSort recLe l₁).map fun r => (r.day, r.description))
            []))) =
    List.insertionSort itemDateLe
      (addFixedList (year + 1) NEXT_YEAR_FIXED_HOLIDAYS
        (addFixedList year FIXED_HOLIDAYS
          (selectLoop year
            ((List.insertionSort recLe l₂).map fun r => (r.day, r.description))
            [])))
  rw [selectKeys_eq h]

/-- Witness for C6 at a concrete two-record permutation. -/
theorem claim_C6_witness :
    selectPvpcHolidays
      [⟨⟨2024, 5, 1⟩, "Fiesta del Trabajo", "Nacional", "", ""⟩,
       ⟨⟨2024, 1, 1⟩, "Año Nuevo", "Nacional", "", ""⟩] 2024 =
    selectPvpcHolidays
      [⟨⟨2024, 1, 1⟩, "Año Nuevo", "Nacional", "", ""⟩,
       ⟨⟨2024, 5, 1⟩, "Fiesta del Trabajo", "Nacional", "", ""⟩] 2024 :=
  claim_C6 _ _ 2024
    (List.Perm.swap
      (⟨⟨2024, 1, 1⟩, "Año Nuevo", "Nacional", "", ""⟩ : HolidayRecord)
      (⟨⟨2024, 5, 1⟩, "Fiesta del Trabajo", "Nacional", "", ""⟩ : HolidayRecord)
      [])

/-- C7: no key of the selector output falls on a Saturday or Sunday, and no
output entry has the canonical description "Viernes Santo", for every record
list and year. -/
theorem claim_C7 (records : List HolidayRecord) (year : Int)
    (p : PyDate × String) (hp : p ∈ selectPvpcHolidays records year) :
    isWeekend p.1 = false ∧ p.2 ≠ "Viernes Santo" := by
  unfold selectPvpcHolidays at hp
  rw [List.Perm.mem_iff (List.perm_insertionSort itemDateLe _)] at hp
  exact addFixedList_inv (year + 1) NEXT_YEAR_FIXED_HOLIDAYS _ (by decide)
    (addFixedList_inv year FIXED_HOLIDAYS _ (by decide)
      (selectLoop_inv year _ [] (by simp))) p hp

/-- Witness for C7 at a concrete output entry of the empty-record selection. -/
theorem claim_C7_witness :
    isWeekend (⟨2024, 11, 1⟩ : PyDate) = false ∧
      "Todos los Santos" ≠ "Viernes Santo" :=
  claim_C7 [] 2024 (⟨2024, 11, 1⟩, "Todos los Santos") (by decide)

/-- C8: for every record list and year Y, the selector output contains the key
January 1 of Y+1 unless it falls on a weekend, and likewise January 6 of Y+1. -/
theorem claim_C8 (records : List HolidayRecord) (year : Int) :
    (isWeekend ⟨year + 1, 1, 1⟩ = false →
      ∃ s, ((⟨year + 1, 1, 1⟩ : PyDate), s) ∈ selectPvpcHolidays records year) ∧
    (isWeekend ⟨year + 1, 1, 6⟩ = false →
      ∃ s, ((⟨year + 1, 1, 6⟩ : PyDate), s) ∈ selectPvpcHolidays records year) := by
  unfold selectPvpcHolidays
  constructor <;> intro hw
  · rcases (addNextYear_mem (year + 1) _).1 hw with ⟨s, hs⟩
    exact ⟨s, (List.Perm.mem_iff (List.perm_insertionSort itemDateLe _)).mpr hs⟩
  · rcases (addNextYear_mem (year + 1) _).2 hw with ⟨s, hs⟩
    exact ⟨s, (List.Perm.mem_iff (List.perm_insertionSort itemDateLe _)).mpr hs⟩

/-- Witness for C8 at year 2024 (2025-01-01 is a Wednesday, 2025-01-06 a
Monday). -/
theorem claim_C8_witness :
    (∃ s, ((⟨2024 + 1, 1, 1⟩ : PyDate), s) ∈ selectPvpcHolidays [] 2024) ∧
    (∃ s, ((⟨2024 + 1, 1, 6⟩ : PyDate), s) ∈ selectPvpcHolidays [] 2024) :=
  ⟨(claim_C8 [] 2024).1 (by decide), (claim_C8 [] 2024).2 (by decide)⟩

/-! ## CSV parsing lemmas (C9) -/

theorem validRow_eq_isSome (row : Row) :
    validRow row = (rowToRecord row).isSome := by
  unfold validRow rowToRecord
  by_cases h1 : pyStrip (rowGet row "FECHA") = ""
  · simp [h1]
  · by_cases h2 : pyStrip (rowGet row "DESCRIPCION") = ""
    · simp [h1, h2]
    · cases hp : parseDateDDMMYYYY (pyStrip (rowGet row "FECHA")) <;>
        simp [h1, h2, hp]

theorem collectRecords_length : ∀ rows : List Row,
    (collectRecords rows).length = rows.countP validRow
  | [] => rfl
  | row :: rest => by
    unfold collectRecords
    rw [List.countP_cons]
    cases hr : rowToRecord row with
    | none =>
      have hv : validRow row = false := by
        rw [validRow_eq_isSome, hr, Option.isSome_none]
      simp [hv, collectRecords_length rest]
    | some r =>
      have hv : validRow row = true := by
        rw [validRow_eq_isSome, hr, Option.isSome_some]
      simp [hv, collectRecords_length rest]

theorem collectRecords_eq_nil_iff : ∀ rows : List Row,
    (collectRecords rows = [] ↔ ∀ row ∈ rows, validRow row = false)
  | [] => by simp [collectRecords]
  | row :: rest => by
    unfold collectRecords
    cases hr : rowToRecord row with
    | none =>
      have hv : validRow row = false := by
        rw [validRow_eq_isSome, hr, Option.isSome_none]
      rw [collectRecords_eq_nil_iff rest]
      constructor
      · intro hall r hmem
        rcases List.mem_cons.mp hmem with rfl | hmem
        · exact hv
        · exact hall r hmem
      · intro hall r hmem
        exact hall r (List.mem_cons_of_mem _ hmem)
    | some r =>
      have hv : validRow row = true := by
        rw [validRow_eq_isSome, hr, Option.isSome_some]
      simp only [List.cons_ne_nil, false_iff, not_forall]
      exact ⟨row, List.mem_cons_self row rest, by simp [hv]⟩

/-- C9: the CSV parser fails exactly when a required header column is missing
or no valid record remains; each discarded row (blank or unparseable date or
blank description) is skipped without failing the parse, every other row
yields one record, and the concrete one-bad-three-good input yields exactly
the three valid records. -/
theorem claim_C9 :
    (∀ (fieldnames : List String) (rows : List Row),
      (∃ msg, parseHolidayCsv fieldnames rows = Except.error msg) ↔
        ((∃ c ∈ REQUIRED_COLUMNS, ¬ c ∈ fieldnames) ∨
          ∀ row ∈ rows, validRow row = false)) ∧
    (∀ (fieldnames : List String) (rows : List Row)
      (records : List HolidayRecord),
      parseHolidayCsv fieldnames rows = Except.ok records →
        records.length = rows.countP validRow) ∧
    parseHolidayCsv REQUIRED_COLUMNS exampleRows = Except.ok exampleRecords := by
  refine ⟨?_, ?_, by rfl⟩
  · intro fieldnames rows
    unfold parseHolidayCsv
    by_cases hmiss : REQUIRED_COLUMNS.filter (fun c => ¬ c ∈ fieldnames) ≠ []
    · rw [if_pos hmiss]
      constructor
      · intro _
        left
        rcases List.exists_cons_of_ne_nil hmiss with ⟨c, cs, hc⟩
        have hcmem : c ∈ REQUIRED_COLUMNS.filter fun c => ¬ c ∈ fieldnames := by
          rw [hc]
          exact List.mem_cons_self c cs
        rcases List.mem_filter.mp hcmem with ⟨hc1, hc2⟩
        exact ⟨c, hc1, by simpa using hc2⟩
      · intro _
        exact ⟨"CSV header is incomplete", rfl⟩
    · rw [if_neg hmiss]
      push_neg at hmiss
      cases hcol : collectRecords rows with
      | nil =>
        constructor
        · intro _
          right
          exact (collectRecords_eq_nil_iff rows).mp hcol
        · intro _
          exact ⟨"No valid holidays found in CSV", rfl⟩
      | cons r rs =>
        constructor
        · rintro ⟨msg, hmsg⟩
          cases hmsg
        · rintro (⟨c, hc1, hc2⟩ | hall)
          · have hcmem : c ∈ REQUIRED_COLUMNS.filter
                (fun c => ¬ c ∈ fieldnames) :=
              List.mem_filter.mpr ⟨hc1, by simpa using hc2⟩
            rw [hmiss] at hcmem
            cases hcmem
          · have hnil := (collectRecords_eq_nil_iff rows).mpr hall
            rw [hcol] at hnil
            cases hnil
  · intro fieldnames rows records hok
    unfold parseHolidayCsv at hok
    by_cases hmiss : REQUIRED_COLUMNS.filter (fun c => ¬ c ∈ fieldnames) ≠ []
    · rw [if_pos hmiss] at hok
      cases hok
    · rw [if_neg hmiss] at hok
      cases hcol : collectRecords rows with
      | nil =>
        rw [hcol] at hok
        cases hok
      | cons r rs =>
        rw [hcol] at hok
        cases hok
        rw [← hcol]
        exact collectRecords_length rows

/-- Witness for C9: the length equation instantiated on the concrete example
input via the parser's output there. -/
theorem claim_C9_witness :
    exampleRecords.length = exampleRows.countP validRow :=
  claim_C9.2.1 REQUIRED_COLUMNS exampleRows exampleRecords claim_C9.2.2

/-! ## Tariff classifier lemmas (C5, C10) -/

theorem pricePeriodKey_early (ts : Int) (zone : Bool) (holidays : Int → Bool)
    (h : hourOf ts < 8) : pricePeriodKey ts zone holidays = "P3" := by
  unfold pricePeriodKey periodFromDayHour
  rw [if_pos (Or.inr h)]

/-- C5: the classifier returns P3 at 2024-11-04 07:59 (mainland) for any
holiday set, P2 at 2024-11-04 08:00 (a Monday) with no holidays, and P3 at
2024-11-01 10:00 when 2024-11-01 is a holiday, although 10 is a mainland P1
peak hour. -/
theorem claim_C5 :
    (∀ holidays : Int → Bool,
      pricePeriodKey (localTs ⟨2024, 11, 4⟩ 7 59) false holidays = "P3") ∧
    pricePeriodKey (localTs ⟨2024, 11, 4⟩ 8 0) false (fun _ => false) = "P2" ∧
    pricePeriodKey (localTs ⟨2024, 11, 1⟩ 10 0) false
      (fun d => decide (d = daysFromCivil ⟨2024, 11, 1⟩)) = "P3" ∧
    (10 : Int) ∈ PRICE_HOURS_P1_PCB := by
  refine ⟨?_, by rfl, by rfl, by decide⟩
  intro holidays
  exact pricePeriodKey_early _ _ _ (by decide)

theorem hourOf_bounds (ts : Int) : 0 ≤ hourOf ts ∧ hourOf ts < 24 := by
  unfold hourOf
  omega

/-- C10: for each zone the P1 and P2 hour tables are disjoint duplicate-free
8-element lists whose union is exactly the hours 8..23, and on a non-holiday
weekday hour at least 8 the price period is decided by table membership alone
(the trailing default-P2 branch of `_price_period_key` is unreachable). -/
theorem claim_C10 :
    (∀ h : Int, ¬ (h ∈ PRICE_HOURS_P1_PCB ∧ h ∈ PRICE_HOURS_P2_PCB)) ∧
    (∀ h : Int, ¬ (h ∈ PRICE_HOURS_P1_CYM ∧ h ∈ PRICE_HOURS_P2_CYM)) ∧
    (∀ h : Int, (h ∈ PRICE_HOURS_P1_PCB ∨ h ∈ PRICE_HOURS_P2_PCB) ↔
      (8 ≤ h ∧ h ≤ 23)) ∧
    (∀ h : Int, (h ∈ PRICE_HOURS_P1_CYM ∨ h ∈ PRICE_HOURS_P2_CYM) ↔
      (8 ≤ h ∧ h ≤ 23)) ∧
    (PRICE_HOURS_P1_PCB.length = 8 ∧ PRICE_HOURS_P1_PCB.Nodup) ∧
    (PRICE_HOURS_P2_PCB.length = 8 ∧ PRICE_HOURS_P2_PCB.Nodup) ∧
    (PRICE_HOURS_P1_CYM.length = 8 ∧ PRICE_HOURS_P1_CYM.Nodup) ∧
    (PRICE_HOURS_P2_CYM.length = 8 ∧ PRICE_HOURS_P2_CYM.Nodup) ∧
    (∀ (ts : Int) (zone : Bool) (holidays : Int → Bool),
      isoweekdayOfDay (epochDay ts) < 6 → holidays (epochDay ts) = false →
      8 ≤ hourOf ts →
      (hourOf ts ∈ (if zone then PRICE_HOURS_P2_CYM else PRICE_HOURS_P2_PCB) ∨
        hourOf ts ∈ (if zone then PRICE_HOURS_P1_CYM else PRICE_HOURS_P1_PCB)) ∧
      pricePeriodKey ts zone holidays =
        (if hourOf ts ∈ (if zone then PRICE_HOURS_P2_CYM else PRICE_HOURS_P2_PCB)
          then "P2" else "P1")) := by
  refine ⟨?_, ?_, ?_, ?_, by decide, by decide, by decide, by decide, ?_⟩
  · intro h
    simp only [PRICE_HOURS_P1_PCB, PRICE_HOURS_P2_PCB, List.mem_cons,
      List.mem_singleton, List.not_mem_nil, or_false]
    omega
  · intro h
    simp only [PRICE_HOURS_P1_CYM, PRICE_HOURS_P2_CYM, List.mem_cons,
      List.mem_singleton, List.not_mem_nil, or_false]
    omega
  · intro h
    simp only [PRICE_HOURS_P1_PCB, PRICE_HOURS_P2_PCB, List.mem_cons,
      List.mem_singleton, List.not_mem_nil, or_false]
    omega
  · intro h
    simp only [PRICE_HOURS_P1_CYM, PRICE_HOURS_P2_CYM, List.mem_cons,
      List.mem_singleton, List.not_mem_nil, or_false]
    omega
  · intro ts zone holidays hwk hhol hh8
    have hlt : hourOf ts < 24 := (hourOf_bounds ts).2
    have hcond1 : ¬ (isoweekdayOfDay (epochDay ts) ≥ 6 ∨ hourOf ts < 8) := by
      omega
    have hcond2 : ¬ (holidays (epochDay ts) = true) := by simp [hhol]
    unfold pricePeriodKey periodFromDayHour
    rw [if_neg hcond1]
    rw [if_neg hcond2]
    have hge : 8 ≤ hourOf ts := hh8
    generalize hourOf ts = h at hge hlt ⊢
    interval_cases h <;> cases zone <;> exact ⟨by decide, by decide⟩

/-- Witness for C10's classifier clause at 2024-11-04 10:00 mainland. -/
theorem claim_C10_witness :
    (hourOf (localTs ⟨2024, 11, 4⟩ 10 0) ∈
        (if false then PRICE_HOURS_P2_CYM else PRICE_HOURS_P2_PCB) ∨
      hourOf (localTs ⟨2024, 11, 4⟩ 10 0) ∈
        (if false then PRICE_HOURS_P1_CYM else PRICE_HOURS_P1_PCB)) ∧
    pricePeriodKey (localTs ⟨2024, 11, 4⟩ 10 0) false (fun _ => false) =
      (if hourOf (localTs ⟨2024, 11, 4⟩ 10 0) ∈
          (if false then PRICE_HOURS_P2_CYM else PRICE_HOURS_P2_PCB)
        then "P2" else "P1") :=
  claim_C10.2.2.2.2.2.2.2.2 (localTs ⟨2024, 11, 4⟩ 10 0) false (fun _ => false)
    (by decide) rfl (by decide)

/-! ## Scan lemmas (C2, C3) -/

theorem scanNext_some_spec (f : Int → String) (t : Int) (cur : String) :
    ∀ (fuel : Nat) (k : Int) (nxt : String) (delta : Int), 1 ≤ k →
      scanNext f t cur fuel k = some (nxt, delta) →
      60 * k ≤ delta ∧ f (t + delta) = nxt ∧ nxt ≠ cur ∧
        (∃ j : Int, delta = 60 * j) ∧
        ∀ j : Int, k ≤ j → 60 * j < delta → f (t + 60 * j) = cur
  | 0, _, _, _, _, h => by cases h
  | Nat.succ fuel, k, nxt, delta, hk, h => by
    simp only [scanNext] at h
    by_cases hc : f (t + 60 * k) = cur
    · rw [if_pos hc] at h
      obtain ⟨h1, h2, h3, h4, h5⟩ :=
        scanNext_some_spec f t cur fuel (k + 1) nxt delta (by omega) h
      refine ⟨by omega, h2, h3, h4, ?_⟩
      intro j hj hjd
      rcases eq_or_lt_of_le hj with rfl | hjlt
      · exact hc
      · exact h5 j (by omega) hjd
    · rw [if_neg hc] at h
      injection h with hpair
      injection hpair with ha hb
      subst ha
      subst hb
      exact ⟨le_refl _, rfl, hc, ⟨k, rfl⟩, fun j hj hjd => absurd hjd (by omega)⟩

theorem scanNext_none_spec (f : Int → String) (t : Int) (cur : String) :
    ∀ (fuel : Nat) (k : Int),
      scanNext f t cur fuel k = none →
      ∀ j : Int, k ≤ j → j < k + fuel → f (t + 60 * j) = cur
  | 0, _, _, _, hj1, hj2 => by omega
  | Nat.succ fuel, k, h, j, hj1, hj2 => by
    simp only [scanNext] at h
    by_cases hc : f (t + 60 * k) = cur
    · rw [if_pos hc] at h
      rcases eq_or_lt_of_le hj1 with rfl | hlt
      · exact hc
      · exact scanNext_none_spec f t cur fuel (k + 1) h j (by omega)
          (by push_cast at hj2 ⊢; omega)
    · rw [if_neg hc] at h
      cases h

theorem scanNext_none_of_const (f : Int → String) (t : Int) (cur : String)
    (hconst : ∀ j : Int, f (t + 60 * j) = cur) :
    ∀ (fuel : Nat) (k : Int), scanNext f t cur fuel k = none
  | 0, _ => rfl
  | Nat.succ fuel, k => by
    simp only [scanNext]
    rw [if_pos (hconst k)]
    exact scanNext_none_of_const f t cur hconst fuel (k + 1)

theorem scanNext_isSome_of_exists (f : Int → String) (t : Int) (cur : String)
    (fuel : Nat) (hj : ∃ j : Int, 1 ≤ j ∧ j < 1 + fuel ∧ f (t + 60 * j) ≠ cur) :
    (scanNext f t cur fuel 1).isSome = true := by
  rcases hj with ⟨j, hj1, hj2, hjne⟩
  cases hs : scanNext f t cur fuel 1 with
  | some v => rfl
  | none => exact absurd (scanNext_none_spec f t cur fuel 1 hs j hj1 hj2) hjne

theorem epochDay_add_small {u r : Int} (hu : u % 60 = 0) (h0 : 0 ≤ r)
    (h1 : r < 60) : epochDay (u + r) = epochDay u := by
  unfold epochDay
  omega

theorem hourOf_add_small {u r : Int} (hu : u % 60 = 0) (h0 : 0 ≤ r)
    (h1 : r < 60) : hourOf (u + r) = hourOf u := by
  unfold hourOf
  omega

theorem pricePeriodKey_block (zone : Bool) (holidays : Int → Bool) {u r : Int}
    (hu : u % 60 = 0) (h0 : 0 ≤ r) (h1 : r < 60) :
    pricePeriodKey (u + r) zone holidays = pricePeriodKey u zone holidays := by
  unfold pricePeriodKey
  rw [epochDay_add_small hu h0 h1, hourOf_add_small hu h0 h1]

theorem powerPeriodKey_block (holidays : Int → Bool) {u r : Int}
    (hu : u % 60 = 0) (h0 : 0 ≤ r) (h1 : r < 60) :
    powerPeriodKey (u + r) holidays = powerPeriodKey u holidays := by
  unfold powerPeriodKey
  rw [epochDay_add_small hu h0 h1, hourOf_add_small hu h0 h1]

/-- C2 (amended): for every hour-aligned local timestamp, zone flag and
holiday set, whenever the bounded next-period scan returns, the returned
`time_until_next` is strictly positive, the label at `t + time_until_next`
equals the returned next period and differs from the label at `t`, and the
label equals the label at `t` at every instant strictly between. -/
theorem claim_C2 (t : Int) (zone : Bool) (holidays : Int → Bool)
    (cur nxt : String) (delta : Int) (halign : t % 60 = 0)
    (h : getCurrentAndNextPricePeriods t zone holidays = some (cur, nxt, delta)) :
    0 < delta ∧ cur = pricePeriodKey t zone holidays ∧
      pricePeriodKey (t + delta) zone holidays = nxt ∧ nxt ≠ cur ∧
      ∀ s : Int, t < s → s < t + delta →
        pricePeriodKey s zone holidays = pricePeriodKey t zone holidays := by
  replace h : (match scanNext (fun s => pricePeriodKey s zone holidays) t
      (pricePeriodKey t zone holidays) 366 1 with
    | some (nxt, delta) => some (pricePeriodKey t zone holidays, nxt, delta)
    | none => none) = some (cur, nxt, delta) := h
  cases hs : scanNext (fun s => pricePeriodKey s zone holidays) t
      (pricePeriodKey t zone holidays) 366 1 with
  | none =>
    rw [hs] at h
    cases h
  | some v =>
    rw [hs] at h
    obtain ⟨nxt', delta'⟩ := v
    injection h with hpair
    injection hpair with hcur hpair
    injection hpair with hnxt hdelta
    subst hcur
    subst hnxt
    subst hdelta
    obtain ⟨h1, h2, h3, ⟨kd, hkd⟩, h5⟩ :=
      scanNext_some_spec _ t _ 366 1 nxt' delta' (le_refl 1) hs
    refine ⟨by omega, rfl, h2, h3, ?_⟩
    intro s hs1 hs2
    have hd0 : 0 < s - t := by omega
    by_cases hj : (s - t) / 60 = 0
    · have hlt : s - t < 60 := by omega
      have hb := pricePeriodKey_block zone holidays halign
        (show (0 : Int) ≤ s - t by omega) hlt
      rw [show s = t + (s - t) by omega]
      exact hb
    · have hj1 : 1 ≤ (s - t) / 60 := by omega
      have hu : (t + 60 * ((s - t) / 60)) % 60 = 0 := by omega
      have hb := pricePeriodKey_block zone holidays hu
        (show (0 : Int) ≤ (s - t) % 60 by omega)
        (show (s - t) % 60 < 60 by omega)
      have hinv := h5 ((s - t) / 60) hj1 (by omega)
      simp only at hinv
      rw [show s = t + 60 * ((s - t) / 60) + (s - t) % 60 by omega]
      rw [hb, hinv]

/-- Witness for C2 at 2024-11-04 07:00 mainland with no holidays: the scan
returns ("P3", "P2", 60). -/
theorem claim_C2_witness :
    (0 : Int) < 60 ∧
      "P3" = pricePeriodKey (localTs ⟨2024, 11, 4⟩ 7 0) false (fun _ => false) ∧
      pricePeriodKey (localTs ⟨2024, 11, 4⟩ 7 0 + 60) false (fun _ => false)
        = "P2" ∧ "P2" ≠ "P3" ∧
      ∀ s : Int, localTs ⟨2024, 11, 4⟩ 7 0 < s →
        s < localTs ⟨2024, 11, 4⟩ 7 0 + 60 →
        pricePeriodKey s false (fun _ => false) =
          pricePeriodKey (localTs ⟨2024, 11, 4⟩ 7 0) false (fun _ => false) :=
  claim_C2 (localTs ⟨2024, 11, 4⟩ 7 0) false (fun _ => false) "P3" "P2" 60
    (by decide) (by rfl)

/-- Counterexample to C2 as stated: at the non-hour-aligned local timestamp
2024-11-04 07:30 (mainland, empty holiday set) the function returns
`time_until_next` of 60 minutes, but the price-period label is not constant
on the open interval: it is P3 at 07:45 and P2 at 08:15, both strictly
between 07:30 and 08:30. -/
theorem claim_C2_counterexample :
    getCurrentAndNextPricePeriods (localTs ⟨2024, 11, 4⟩ 7 30) false
        (fun _ => false) = some ("P3", "P2", 60) ∧
    localTs ⟨2024, 11, 4⟩ 7 30 < localTs ⟨2024, 11, 4⟩ 7 45 ∧
    localTs ⟨2024, 11, 4⟩ 7 45 < localTs ⟨2024, 11, 4⟩ 8 15 ∧
    localTs ⟨2024, 11, 4⟩ 8 15 < localTs ⟨2024, 11, 4⟩ 7 30 + 60 ∧
    pricePeriodKey (localTs ⟨2024, 11, 4⟩ 7 45) false (fun _ => false) = "P3" ∧
    pricePeriodKey (localTs ⟨2024, 11, 4⟩ 8 15) false (fun _ => false) = "P2" :=
  ⟨by rfl, by decide, by decide, by decide, by rfl, by rfl⟩

/-! ## Label lemmas on a non-holiday weekday (C3) -/

theorem powerPeriodKey_early (ts : Int) (holidays : Int → Bool)
    (h : hourOf ts < 8) : powerPeriodKey ts holidays = "P3" := by
  unfold powerPeriodKey powerFromDayHour
  rw [if_pos (Or.inr h)]

theorem pricePeriodKey_all_holiday (ts : Int) (zone : Bool) :
    pricePeriodKey ts zone (fun _ => true) = "P3" := by
  unfold pricePeriodKey periodFromDayHour
  by_cases h1 : isoweekdayOfDay (epochDay ts) ≥ 6 ∨ hourOf ts < 8
  · rw [if_pos h1]
  · rw [if_neg h1, if_pos rfl]

theorem powerPeriodKey_all_holiday (ts : Int) :
    powerPeriodKey ts (fun _ => true) = "P3" := by
  unfold powerPeriodKey powerFromDayHour
  by_cases h1 : isoweekdayOfDay (epochDay ts) ≥ 6 ∨ hourOf ts < 8
  · rw [if_pos h1]
  · rw [if_neg h1, if_pos rfl]

theorem epochDay_day_hour {d h : Int} (h0 : 0 ≤ h) (h1 : h < 24) :
    epochDay (1440 * d + 60 * h) = d := by
  unfold epochDay
  omega

theorem hourOf_day_hour {d h : Int} (h0 : 0 ≤ h) (h1 : h < 24) :
    hourOf (1440 * d + 60 * h) = h := by
  unfold hourOf
  omega

theorem pricePeriodKey_day_hour (d h : Int) (zone : Bool)
    (holidays : Int → Bool) (h0 : 0 ≤ h) (h1 : h < 24) :
    pricePeriodKey (1440 * d + 60 * h) zone holidays =
      periodFromDayHour d h zone holidays := by
  unfold pricePeriodKey
  rw [epochDay_day_hour h0 h1, hourOf_day_hour h0 h1]

theorem powerPeriodKey_day_hour (d h : Int) (holidays : Int → Bool)
    (h0 : 0 ≤ h) (h1 : h < 24) :
    powerPeriodKey (1440 * d + 60 * h) holidays =
      powerFromDayHour d h holidays := by
  unfold powerPeriodKey
  rw [epochDay_day_hour h0 h1, hourOf_day_hour h0 h1]

theorem periodFromDayHour_hour8 (d : Int) (zone : Bool) (holidays : Int → Bool)
    (hwk : isoweekdayOfDay d ≤ 5) (hhol : holidays d = false) :
    periodFromDayHour d 8 zone holidays = "P2" := by
  unfold periodFromDayHour
  rw [if_neg (by omega), if_neg (by simp [hhol])]
  cases zone <;> decide

theorem periodFromDayHour_peak (d : Int) (zone : Bool) (holidays : Int → Bool)
    (hwk : isoweekdayOfDay d ≤ 5) (hhol : holidays d = false) :
    periodFromDayHour d (if zone then 11 else 10) zone holidays = "P1" := by
  cases zone <;>
    · unfold periodFromDayHour
      rw [if_neg (by omega), if_neg (by simp [hhol])]
      decide

theorem powerFromDayHour_hour8 (d : Int) (holidays : Int → Bool)
    (hwk : isoweekdayOfDay d ≤ 5) (hhol : holidays d = false) :
    powerFromDayHour d 8 holidays = "P1" := by
  unfold powerFromDayHour
  rw [if_neg (by omega), if_neg (by simp [hhol])]

theorem pricePeriodKey_cases (ts : Int) (zone : Bool) (holidays : Int → Bool) :
    pricePeriodKey ts zone holidays = "P3" ∨
      pricePeriodKey ts zone holidays = "P2" ∨
      pricePeriodKey ts zone holidays = "P1" := by
  unfold pricePeriodKey periodFromDayHour
  split_ifs <;> simp

theorem powerPeriodKey_cases (ts : Int) (holidays : Int → Bool) :
    powerPeriodKey ts holidays = "P3" ∨ powerPeriodKey ts holidays = "P1" := by
  unfold powerPeriodKey powerFromDayHour
  split_ifs <;> simp

/-- The k-th hourly scan step lands inside the one-hour block starting at the
hour-aligned instant `u`, for the right k. -/
theorem scan_step_in_block (t u : Int) (hu : u % 60 = 0) (h1 : t < u) :
    ∃ k : Int, 1 ≤ k ∧ 60 * k ≤ u - t + 59 ∧
      0 ≤ t + 60 * k - u ∧ t + 60 * k - u < 60 := by
  exact ⟨(u - t + 59) / 60, by omega, by omega, by omega, by omega⟩

/-- If a label function is constant on one-hour blocks and some hour-aligned
instant within the scan range carries a label other than `cur`, the 366-step
scan succeeds. -/
theorem scan_isSome_of_block (f : Int → String) (t : Int) (cur : String)
    (hblock : ∀ u r : Int, u % 60 = 0 → 0 ≤ r → r < 60 → f (u + r) = f u)
    (u : Int) (hu : u % 60 = 0) (h1 : t < u) (h2 : u ≤ t + 21901)
    (hne : f u ≠ cur) : (scanNext f t cur 366 1).isSome = true := by
  obtain ⟨k, hk1, hk2, hk3, hk4⟩ := scan_step_in_block t u hu h1
  apply scanNext_isSome_of_exists
  refine ⟨k, hk1, by omega, ?_⟩
  rw [show t + 60 * k = u + (t + 60 * k - u) by omega]
  rw [hblock u (t + 60 * k - u) hu hk3 hk4]
  exact hne

set_option maxRecDepth 10000 in
/-- Counterexample to C3 as stated: with the holiday set that contains every
day, every hour is P3 (and every power period P3), so neither hour-by-hour
scan finds a different label within its 366-step bound. -/
theorem claim_C3_counterexample :
    getCurrentAndNextPricePeriods 0 false (fun _ => true) = none ∧
    getCurrentAndNextPowerPeriods 0 false (fun _ => true) = none := by
  constructor
  · show (match scanNext (fun s => pricePeriodKey s false (fun _ => true)) 0
        (pricePeriodKey 0 false (fun _ => true)) 366 1 with
      | some (nxt, delta) =>
        some (pricePeriodKey 0 false (fun _ => true), nxt, delta)
      | none => none) = none
    rw [scanNext_none_of_const _ 0 _
      (fun j => by simp only [pricePeriodKey_all_holiday]) 366 1]
  · show (match scanNext (fun s => powerPeriodKey s (fun _ => true)) 0
        (powerPeriodKey 0 (fun _ => true)) 366 1 with
      | some (nxt, delta) =>
        some (powerPeriodKey 0 (fun _ => true), nxt, delta)
      | none => none) = none
    rw [scanNext_none_of_const _ 0 _
      (fun j => by simp only [powerPeriodKey_all_holiday]) 366 1]

/-- C3 (amended): for every timestamp, zone flag, and holiday set under which
at least one of the 14 days after the current day is a non-holiday weekday,
both the price-period and power-period hour-by-hour scans find a different
label within 366 hourly steps. -/
theorem claim_C3 (t : Int) (zone : Bool) (holidays : Int → Bool)
    (hex : ∃ d : Int, epochDay t < d ∧ d ≤ epochDay t + 14 ∧
      isoweekdayOfDay d ≤ 5 ∧ holidays d = false) :
    (getCurrentAndNextPricePeriods t zone holidays).isSome = true ∧
    (getCurrentAndNextPowerPeriods t zone holidays).isSome = true := by
  rcases hex with ⟨d, hd1, hd2, hwk, hhol⟩
  have ht1 : t < 1440 * d := by
    unfold epochDay at hd1
    omega
  have ht2 : 1440 * d + 1380 ≤ t + 21901 := by
    unfold epochDay at hd2
    omega
  have l3 : pricePeriodKey (1440 * d + 60 * 0) zone holidays = "P3" := by
    apply pricePeriodKey_early
    rw [hourOf_day_hour (by omega) (by omega)]
    omega
  have l2 : pricePeriodKey (1440 * d + 60 * 8) zone holidays = "P2" := by
    rw [pricePeriodKey_day_hour d 8 zone holidays (by omega) (by omega)]
    exact periodFromDayHour_hour8 d zone holidays hwk hhol
  obtain ⟨hp, hp8, hp24, hpP1⟩ : ∃ hp : Int, 8 ≤ hp ∧ hp < 24 ∧
      periodFromDayHour d hp zone holidays = "P1" := by
    cases zone
    · exact ⟨10, by norm_num, by norm_num,
        by simpa using periodFromDayHour_peak d false holidays hwk hhol⟩
    · exact ⟨11, by norm_num, by norm_num,
        by simpa using periodFromDayHour_peak d true holidays hwk hhol⟩
  have l1 : pricePeriodKey (1440 * d + 60 * hp) zone holidays = "P1" := by
    rw [pricePeriodKey_day_hour d hp zone holidays (by omega) (by omega)]
    exact hpP1
  have q3 : powerPeriodKey (1440 * d + 60 * 0) holidays = "P3" := by
    apply powerPeriodKey_early
    rw [hourOf_day_hour (by omega) (by omega)]
    omega
  have q1 : powerPeriodKey (1440 * d + 60 * 8) holidays = "P1" := by
    rw [powerPeriodKey_day_hour d 8 holidays (by omega) (by omega)]
    exact powerFromDayHour_hour8 d holidays hwk hhol
  constructor
  · have hA : (scanNext (fun s => pricePeriodKey s zone holidays) t
        (pricePeriodKey t zone holidays) 366 1).isSome = true := by
      rcases pricePeriodKey_cases t zone holidays with hc | hc | hc
      · apply scan_isSome_of_block _ _ _
          (fun u r hu h0 h1 => pricePeriodKey_block zone holidays hu h0 h1)
          (1440 * d + 60 * 8) (by omega) (by omega) (by omega)
        simp only [l2, hc]
        decide
      · apply scan_isSome_of_block _ _ _
          (fun u r hu h0 h1 => pricePeriodKey_block zone holidays hu h0 h1)
          (1440 * d + 60 * hp) (by omega) (by omega) (by omega)
        simp only [l1, hc]
        decide
      · apply scan_isSome_of_block _ _ _
          (fun u r hu h0 h1 => pricePeriodKey_block zone holidays hu h0 h1)
          (1440 * d + 60 * 0) (by omega) (by omega) (by omega)
        simp only [l3, hc]
        decide
    show (match scanNext (fun s => pricePeriodKey s zone holidays) t
        (pricePeriodKey t zone holidays) 366 1 with
      | some (nxt, delta) => some (pricePeriodKey t zone holidays, nxt, delta)
      | none => none).isSome = true
    cases hsc : scanNext (fun s => pricePeriodKey s zone holidays) t
        (pricePeriodKey t zone holidays) 366 1 with
    | none =>
      rw [hsc] at hA
      exact absurd hA (by simp)
    | some v =>
      obtain ⟨a, b⟩ := v
      rfl
  · have hA : (scanNext (fun s => powerPeriodKey s holidays) t
        (powerPeriodKey t holidays) 366 1).isSome = true := by
      rcases powerPeriodKey_cases t holidays with hc | hc
      · apply scan_isSome_of_block _ _ _
          (fun u r hu h0 h1 => powerPeriodKey_block holidays hu h0 h1)
          (1440 * d + 60 * 8) (by omega) (by omega) (by omega)
        simp only [q1, hc]
        decide
      · apply scan_isSome_of_block _ _ _
          (fun u r hu h0 h1 => powerPeriodKey_block holidays hu h0 h1)
          (1440 * d + 60 * 0) (by omega) (by omega) (by omega)
        simp only [q3, hc]
        decide
    show (match scanNext (fun s => powerPeriodKey s holidays) t
        (powerPeriodKey t holidays) 366 1 with
      | some (nxt, delta) => some (powerPeriodKey t holidays, nxt, delta)
      | none => none).isSome = true
    cases hsc : scanNext (fun s => powerPeriodKey s holidays) t
        (powerPeriodKey t holidays) 366 1 with
    | none =>
      rw [hsc] at hA
      exact absurd hA (by simp)
    | some v =>
      obtain ⟨a, b⟩ := v
      rfl

/-- Witness for C3 at 1970-01-01 00:00 (a Thursday; day 1 is a non-holiday
Friday). -/
theorem claim_C3_witness :
    (getCurrentAndNextPricePeriods 0 false (fun _ => false)).isSome = true ∧
    (getCurrentAndNextPowerPeriods 0 false (fun _ => false)).isSome = true :=
  claim_C3 0 false (fun _ => false) ⟨1, by decide, by decide, by decide, rfl⟩

/-! ## Ranking engine lemmas (C1, C4) -/

theorem priceRange_isSome {prices : List (Int × ℚ)} {ts : Int} {p : ℚ}
    (hmem : (ts, p) ∈ prices) (off : Int) :
    ∃ mn mx, priceRangeForTimestamp prices off ts = some (mn, mx) := by
  show ∃ mn mx,
    (match prices.filterMap (fun up =>
        if epochDay (up.1 + off) = epochDay (ts + off) then some up.2
        else none) with
      | [] => none
      | p :: rest => some (rest.foldl min p, rest.foldl max p)) = some (mn, mx)
  have hp : p ∈ prices.filterMap (fun up =>
      if epochDay (up.1 + off) = epochDay (ts + off) then some up.2 else none) :=
    List.mem_filterMap.mpr ⟨(ts, p), hmem, by simp⟩
  cases hl : prices.filterMap (fun up =>
      if epochDay (up.1 + off) = epochDay (ts + off) then some up.2
      else none) with
  | nil =>
    rw [hl] at hp
    cases hp
  | cons q rest => exact ⟨_, _, rfl⟩

theorem priceRatio_isSome {prices : List (Int × ℚ)} {ts : Int} {p : ℚ}
    (hmem : (ts, p) ∈ prices) (off : Int) :
    ∃ r, priceRatioForTimestamp prices off ts p = some r := by
  unfold priceRatioForTimestamp
  obtain ⟨mn, mx, hr⟩ := priceRange_isSome hmem off
  rw [hr]
  show ∃ r, (if mx = mn then some ((6 : ℚ)/10)
      else some (round2 ((p - mn) / (mx - mn)))) = some r
  by_cases h : mx = mn
  · rw [if_pos h]
    exact ⟨_, rfl⟩
  · rw [if_neg h]
    exact ⟨_, rfl⟩

theorem mem_futureWithRatio {prices : List (Int × ℚ)} {now off : Int}
    {ts : Int} {p r : ℚ} :
    (ts, p, r) ∈ futureWithRatio prices now off ↔
      ((ts, p) ∈ prices ∧ now < ts ∧
        priceRatioForTimestamp prices off ts p = some r) := by
  unfold futureWithRatio
  rw [List.mem_filterMap]
  constructor
  · rintro ⟨⟨ts', p'⟩, hmem, hf⟩
    by_cases hn : now < ts'
    · rw [if_pos hn] at hf
      cases hr : priceRatioForTimestamp prices off ts' p' with
      | none =>
        rw [hr] at hf
        cases hf
      | some r' =>
        rw [hr] at hf
        injection hf with h1
        injection h1 with ha h2
        injection h2 with hb hc
        subst ha
        subst hb
        subst hc
        exact ⟨hmem, hn, hr⟩
    · rw [if_neg hn] at hf
      cases hf
  · rintro ⟨hmem, hn, hr⟩
    exact ⟨(ts, p), hmem, by rw [if_pos hn, hr]⟩

theorem mem_targetCandidates {prices : List (Int × ℚ)} {now off : Int}
    {m : ℚ} {ts : Int} {p r : ℚ} :
    (ts, p, r) ∈ targetCandidates prices now off m ↔
      ((ts, p) ∈ prices ∧ now < ts ∧
        priceRatioForTimestamp prices off ts p = some r ∧ r ≤ m) := by
  unfold targetCandidates
  rw [List.mem_filterMap]
  constructor
  · rintro ⟨⟨ts', p'⟩, hmem, hf⟩
    by_cases hn : now < ts'
    · rw [if_pos hn] at hf
      cases hr : priceRatioForTimestamp prices off ts' p' with
      | none =>
        rw [hr] at hf
        cases hf
      | some r' =>
        rw [hr] at hf
        replace hf : (if r' ≤ m then some (ts', p', r') else none) =
            some (ts, p, r) := hf
        by_cases hle : r' ≤ m
        · rw [if_pos hle] at hf
          injection hf with h1
          injection h1 with ha h2
          injection h2 with hb hc
          subst ha
          subst hb
          subst hc
          exact ⟨hmem, hn, hr, hle⟩
        · rw [if_neg hle] at hf
          cases hf
    · rw [if_neg hn] at hf
      cases hf
  · rintro ⟨hmem, hn, hr, hle⟩
    refine ⟨(ts, p), hmem, ?_⟩
    rw [if_pos hn, hr]
    show (if r ≤ m then some (ts, p, r) else none) = some (ts, p, r)
    rw [if_pos hle]

theorem futureWithRatio_eq_nil_iff (prices : List (Int × ℚ)) (now off : Int) :
    futureWithRatio prices now off = [] ↔ ¬ ∃ tp ∈ prices, now < tp.1 := by
  rw [List.eq_nil_iff_forall_not_mem]
  constructor
  · rintro hall ⟨⟨ts, p⟩, hmem, hn⟩
    obtain ⟨r, hr⟩ := priceRatio_isSome hmem off
    exact hall (ts, p, r) (mem_futureWithRatio.mpr ⟨hmem, hn, hr⟩)
  · rintro hnone ⟨ts, p, r⟩ hx
    rcases mem_futureWithRatio.mp hx with ⟨hmem, hn, _⟩
    exact hnone ⟨(ts, p), hmem, hn⟩

theorem targetCandidates_eq_nil_iff (prices : List (Int × ℚ)) (now off : Int)
    (m : ℚ) :
    targetCandidates prices now off m = [] ↔
      ¬ ∃ tp ∈ prices, now < tp.1 ∧
        ∃ r, priceRatioForTimestamp prices off tp.1 tp.2 = some r ∧ r ≤ m := by
  rw [List.eq_nil_iff_forall_not_mem]
  constructor
  · rintro hall ⟨⟨ts, p⟩, hmem, hn, r, hr, hle⟩
    exact hall (ts, p, r) (mem_targetCandidates.mpr ⟨hmem, hn, hr, hle⟩)
  · rintro hnone ⟨ts, p, r⟩ hx
    rcases mem_targetCandidates.mp hx with ⟨hmem, hn, hr, hle⟩
    exact hnone ⟨(ts, p), hmem, hn, r, hr, hle⟩

theorem minByTs_spec : ∀ (x : Int × ℚ × ℚ) (xs : List (Int × ℚ × ℚ)),
    minByTs x xs ∈ x :: xs ∧ ∀ y ∈ x :: xs, (minByTs x xs).1 ≤ y.1
  | x, [] => by
    constructor
    · exact List.mem_singleton_self x
    · intro y hy
      rcases List.mem_singleton.mp hy with rfl
      exact le_refl _
  | x, z :: zs => by
    have hstep : minByTs x (z :: zs) = minByTs (if z.1 < x.1 then z else x) zs :=
      rfl
    by_cases h : z.1 < x.1
    · rw [hstep, if_pos h]
      obtain ⟨ih1, ih2⟩ := minByTs_spec z zs
      constructor
      · exact List.mem_cons_of_mem x ih1
      · intro y hy
        rcases List.mem_cons.mp hy with rfl | hy
        · exact le_of_lt (lt_of_le_of_lt (ih2 z (List.mem_cons_self z zs)) h)
        · exact ih2 y hy
    · rw [hstep, if_neg h]
      obtain ⟨ih1, ih2⟩ := minByTs_spec x zs
      constructor
      · rcases List.mem_cons.mp ih1 with he | hm
        · rw [he]
          exact List.mem_cons_self x (z :: zs)
        · exact List.mem_cons_of_mem x (List.mem_cons_of_mem z hm)
      · intro y hy
        rcases List.mem_cons.mp hy with rfl | hy
        · exact ih2 y (List.mem_cons_self y zs)
        · rcases List.mem_cons.mp hy with rfl | hy
          · exact le_trans (ih2 x (List.mem_cons_self x zs)) (by omega)
          · exact ih2 y (List.mem_cons_of_mem x hy)

theorem priceTsLe_trans {a b c : Int × ℚ × ℚ} (hab : priceTsLe a b)
    (hbc : priceTsLe b c) : priceTsLe a c := by
  unfold priceTsLe at *
  rcases hab with h1 | ⟨h1, h1'⟩ <;> rcases hbc with h2 | ⟨h2, h2'⟩
  · exact Or.inl (lt_trans h1 h2)
  · exact Or.inl (h2 ▸ h1)
  · exact Or.inl (h1 ▸ h2)
  · exact Or.inr ⟨h1.trans h2, le_trans h1' h2'⟩

theorem priceTsLe_of_not_lt {a b : Int × ℚ × ℚ} (h : ¬ priceTsLt a b) :
    priceTsLe b a := by
  unfold priceTsLt at h
  unfold priceTsLe
  push_neg at h
  obtain ⟨h1, h2⟩ := h
  rcases eq_or_lt_of_le h1 with heq | hlt
  · exact Or.inr ⟨heq, h2 heq.symm⟩
  · exact Or.inl hlt

theorem minByPriceTs_spec : ∀ (x : Int × ℚ × ℚ) (xs : List (Int × ℚ × ℚ)),
    minByPriceTs x xs ∈ x :: xs ∧
      ∀ y ∈ x :: xs, priceTsLe (minByPriceTs x xs) y
  | x, [] => by
    constructor
    · exact List.mem_singleton_self x
    · intro y hy
      rcases List.mem_singleton.mp hy with rfl
      exact Or.inr ⟨rfl, le_refl _⟩
  | x, z :: zs => by
    have hstep : minByPriceTs x (z :: zs) =
        minByPriceTs (if priceTsLt z x then z else x) zs := rfl
    by_cases h : priceTsLt z x
    · rw [hstep, if_pos h]
      obtain ⟨ih1, ih2⟩ := minByPriceTs_spec z zs
      constructor
      · exact List.mem_cons_of_mem x ih1
      · intro y hy
        rcases List.mem_cons.mp hy with rfl | hy
        · refine priceTsLe_trans (ih2 z (List.mem_cons_self z zs)) ?_
          rcases h with h | ⟨h, h'⟩
          · exact Or.inl h
          · exact Or.inr ⟨h, le_of_lt h'⟩
        · exact ih2 y hy
    · rw [hstep, if_neg h]
      obtain ⟨ih1, ih2⟩ := minByPriceTs_spec x zs
      constructor
      · rcases List.mem_cons.mp ih1 with he | hm
        · rw [he]
          exact List.mem_cons_self x (z :: zs)
        · exact List.mem_cons_of_mem x (List.mem_cons_of_mem z hm)
      · intro y hy
        rcases List.mem_cons.mp hy with rfl | hy
        · exact ih2 y (List.mem_cons_self y zs)
        · rcases List.mem_cons.mp hy with rfl | hy
          · exact priceTsLe_trans (ih2 x (List.mem_cons_self x zs))
              (priceTsLe_of_not_lt h)
          · exact ih2 y (List.mem_cons_of_mem x hy)

theorem nextTargetPrice_some_eq (prices : List (Int × ℚ)) (now off : Int)
    (m : ℚ) :
    nextTargetPrice prices now (some m) off =
      if prices = [] then none
      else
        match targetCandidates prices now off m with
        | c :: cs => some (minByTs c cs)
        | [] =>
          match futureWithRatio prices now off with
          | [] => none
          | f :: fs => some (minByPriceTs f fs) := rfl

theorem exampleSeries_range780 : priceRangeForTimestamp
    [(660, 7/90), (720, 47/90), (780, 3/10), (840, 1/10)] 0 780 =
    some (7/90, 47/90) := by
  norm_num [priceRangeForTimestamp, epochDay, List.filterMap, min_def, max_def]

theorem exampleSeries_range840 : priceRangeForTimestamp
    [(660, 7/90), (720, 47/90), (780, 3/10), (840, 1/10)] 0 840 =
    some (7/90, 47/90) := by
  norm_num [priceRangeForTimestamp, epochDay, List.filterMap, min_def, max_def]

/-- At T+1h the example series' day ratio is exactly 0.50, as the spec states. -/
theorem exampleSeries_ratio780 : priceRatioForTimestamp
    [(660, 7/90), (720, 47/90), (780, 3/10), (840, 1/10)] 0 780 (3/10) =
    some (1/2) := by
  rw [priceRatioForTimestamp, exampleSeries_range780]
  norm_num [round2, roundHalfEven, ratFloor, Rat.num_ofNat, Rat.den_ofNat]

/-- At T+2h the example series' day ratio is exactly 0.05, as the spec states. -/
theorem exampleSeries_ratio840 : priceRatioForTimestamp
    [(660, 7/90), (720, 47/90), (780, 3/10), (840, 1/10)] 0 840 (1/10) =
    some (1/20) := by
  rw [priceRatioForTimestamp, exampleSeries_range840]
  norm_num [round2, roundHalfEven, ratFloor, Rat.num_ofNat, Rat.den_ofNat]

theorem exampleSeries_cands : targetCandidates
    [(660, 7/90), (720, 47/90), (780, 3/10), (840, 1/10)] 720 0 (6/10) =
    [(780, 3/10, 1/2), (840, 1/10, 1/20)] := by
  simp only [targetCandidates, List.filterMap]
  rw [exampleSeries_ratio780, exampleSeries_ratio840]
  norm_num

theorem exampleSeries_cands_cheap : targetCandidates
    [(660, 7/90), (720, 47/90), (780, 3/10), (840, 1/10)] 720 0 (4/10) =
    [(840, 1/10, 1/20)] := by
  simp only [targetCandidates, List.filterMap]
  rw [exampleSeries_ratio780, exampleSeries_ratio840]
  norm_num

/-- C1: for every price series, target level, current time and timezone
offset, `_next_target_price` returns a triple iff the series has an entry
with timestamp strictly greater than now; and when no future entry's ratio is
at or below the target threshold, the returned triple is a future entry of
the series minimal in the lexicographic (price, timestamp) order among all
future entries — the globally cheapest remaining future price, ties broken by
price then timestamp. -/
theorem claim_C1 (prices : List (Int × ℚ)) (now off : Int) (t : Target) :
    ((nextTargetPrice prices now (some (targetMaxRatio t)) off).isSome = true ↔
      ∃ tp ∈ prices, now < tp.1) ∧
    ((¬ ∃ tp ∈ prices, now < tp.1 ∧
        ∃ r, priceRatioForTimestamp prices off tp.1 tp.2 = some r ∧
          r ≤ targetMaxRatio t) →
      (∃ tp ∈ prices, now < tp.1) →
      ∃ ts : Int, ∃ p r : ℚ,
        nextTargetPrice prices now (some (targetMaxRatio t)) off =
          some (ts, p, r) ∧
        (ts, p) ∈ prices ∧ now < ts ∧
        priceRatioForTimestamp prices off ts p = some r ∧
        ∀ tp ∈ prices, now < tp.1 → (p < tp.2 ∨ (p = tp.2 ∧ ts ≤ tp.1))) := by
  constructor
  · rw [nextTargetPrice_some_eq]
    by_cases hnil : prices = []
    · rw [if_pos hnil]
      subst hnil
      simp
    · rw [if_neg hnil]
      cases hc : targetCandidates prices now off (targetMaxRatio t) with
      | cons c cs =>
        obtain ⟨c1, c2, c3⟩ := c
        have hcm : ((c1, c2, c3) : Int × ℚ × ℚ) ∈
            targetCandidates prices now off (targetMaxRatio t) := by
          rw [hc]
          exact List.mem_cons_self _ _
        rcases mem_targetCandidates.mp hcm with ⟨hmem, hn, _, _⟩
        exact ⟨fun _ => ⟨(c1, c2), hmem, hn⟩, fun _ => rfl⟩
      | nil =>
        cases hf : futureWithRatio prices now off with
        | nil =>
          constructor
          · intro hs
            exact absurd hs (by simp)
          · intro hex
            exact absurd hex ((futureWithRatio_eq_nil_iff prices now off).mp hf)
        | cons f fs =>
          obtain ⟨f1, f2, f3⟩ := f
          have hfm : ((f1, f2, f3) : Int × ℚ × ℚ) ∈
              futureWithRatio prices now off := by
            rw [hf]
            exact List.mem_cons_self _ _
          rcases mem_futureWithRatio.mp hfm with ⟨hmem, hn, _⟩
          exact ⟨fun _ => ⟨(f1, f2), hmem, hn⟩, fun _ => rfl⟩
  · intro hno hex
    rw [nextTargetPrice_some_eq]
    have hnil : prices ≠ [] := by
      rcases hex with ⟨tp, htp, _⟩
      intro h
      rw [h] at htp
      cases htp
    rw [if_neg hnil]
    have hc : targetCandidates prices now off (targetMaxRatio t) = [] :=
      (targetCandidates_eq_nil_iff prices now off (targetMaxRatio t)).mpr hno
    rw [hc]
    cases hf : futureWithRatio prices now off with
    | nil =>
      exact absurd hex ((futureWithRatio_eq_nil_iff prices now off).mp hf)
    | cons f fs =>
      obtain ⟨hm1, hm2⟩ := minByPriceTs_spec f fs
      rcases hres : minByPriceTs f fs with ⟨ts, p, r⟩
      rw [hres] at hm1 hm2
      have hmem : ((ts, p, r) : Int × ℚ × ℚ) ∈ futureWithRatio prices now off := by
        rw [hf]
        exact hm1
      rcases mem_futureWithRatio.mp hmem with ⟨hpm, hpn, hpr⟩
      refine ⟨ts, p, r, ?_, hpm, hpn, hpr, ?_⟩
      · show some (minByPriceTs f fs) = some (ts, p, r)
        rw [hres]
      rintro ⟨tps, tpp⟩ htp hntp
      obtain ⟨r', hr'⟩ := priceRatio_isSome htp off
      have hmem' : ((tps, tpp, r') : Int × ℚ × ℚ) ∈ f :: fs := by
        rw [← hf]
        exact mem_futureWithRatio.mpr ⟨htp, hntp, hr'⟩
      exact hm2 _ hmem'

/-- C4 (amended): whenever at least one future entry's same-day ratio is at
or below the threshold, `_next_target_price` returns the qualifying entry
with the smallest timestamp, not the cheapest one; for the spec's example
ratios (0.50 at T+1h, 0.05 at T+2h, realised by a same-day range of
[7/90, 47/90]) and the target threshold 0.6 (neutral), it returns the T+1h
entry. -/
theorem claim_C4 :
    (∀ (prices : List (Int × ℚ)) (now off : Int) (m : ℚ),
      (∃ tp ∈ prices, now < tp.1 ∧
        ∃ r, priceRatioForTimestamp prices off tp.1 tp.2 = some r ∧ r ≤ m) →
      ∃ ts : Int, ∃ p r : ℚ,
        nextTargetPrice prices now (some m) off = some (ts, p, r) ∧
        (ts, p) ∈ prices ∧ now < ts ∧
        priceRatioForTimestamp prices off ts p = some r ∧ r ≤ m ∧
        ∀ tp ∈ prices, now < tp.1 →
          ∀ r', priceRatioForTimestamp prices off tp.1 tp.2 = some r' →
            r' ≤ m → ts ≤ tp.1) ∧
    nextTargetPrice [(660, 7/90), (720, 47/90), (780, 3/10), (840, 1/10)] 720
      (some (6/10)) 0 = some (780, 3/10, 1/2) := by
  constructor
  · intro prices now off m hq
    have hnil : prices ≠ [] := by
      rcases hq with ⟨tp, htp, _⟩
      intro h
      rw [h] at htp
      cases htp
    rw [nextTargetPrice_some_eq, if_neg hnil]
    cases hc : targetCandidates prices now off m with
    | nil =>
      exact absurd hq ((targetCandidates_eq_nil_iff prices now off m).mp hc)
    | cons c cs =>
      obtain ⟨hm1, hm2⟩ := minByTs_spec c cs
      rcases hres : minByTs c cs with ⟨ts, p, r⟩
      rw [hres] at hm1 hm2
      have hmem : ((ts, p, r) : Int × ℚ × ℚ) ∈
          targetCandidates prices now off m := by
        rw [hc]
        exact hm1
      rcases mem_targetCandidates.mp hmem with ⟨hpm, hpn, hpr, hple⟩
      refine ⟨ts, p, r, ?_, hpm, hpn, hpr, hple, ?_⟩
      · show some (minByTs c cs) = some (ts, p, r)
        rw [hres]
      rintro ⟨tps, tpp⟩ htp hntp r' hr' hrle
      have hmem' : ((tps, tpp, r') : Int × ℚ × ℚ) ∈ c :: cs := by
        rw [← hc]
        exact mem_targetCandidates.mpr ⟨htp, hntp, hr', hrle⟩
      exact hm2 _ hmem'
  · rw [nextTargetPrice_some_eq, if_neg (by simp), exampleSeries_cands]
    norm_num [minByTs]

/-- Counterexample to C4's concrete example as stated: realising the spec's
ratios (0.50 at T+1h, 0.05 at T+2h) and taking target cheap (threshold 0.4),
`_next_target_price` returns the T+2h entry, not the T+1h entry — with ratio
0.50 > 0.4 the T+1h slot does not qualify. -/
theorem claim_C4_counterexample :
    priceRatioForTimestamp
      [(660, 7/90), (720, 47/90), (780, 3/10), (840, 1/10)] 0 780 (3/10) =
      some (1/2) ∧
    priceRatioForTimestamp
      [(660, 7/90), (720, 47/90), (780, 3/10), (840, 1/10)] 0 840 (1/10) =
      some (1/20) ∧
    nextTargetPrice [(660, 7/90), (720, 47/90), (780, 3/10), (840, 1/10)] 720
      (some (4/10)) 0 = some (840, 1/10, 1/20) ∧
    (840 : Int) ≠ 780 := by
  refine ⟨exampleSeries_ratio780, exampleSeries_ratio840, ?_, by norm_num⟩
  rw [nextTargetPrice_some_eq, if_neg (by simp), exampleSeries_cands_cheap]
  norm_num [minByTs]

/-- Witness for C4's general clause at the example series with the neutral
threshold. -/
theorem claim_C4_witness :
    ∃ ts : Int, ∃ p r : ℚ,
      nextTargetPrice [(660, 7/90), (720, 47/90), (780, 3/10), (840, 1/10)]
        720 (some (6/10)) 0 = some (ts, p, r) ∧
      (ts, p) ∈ [((660 : Int), (7 : ℚ)/90), (720, 47/90), (780, 3/10),
        (840, 1/10)] ∧ (720 : Int) < ts ∧
      priceRatioForTimestamp
        [(660, 7/90), (720, 47/90), (780, 3/10), (840, 1/10)] 0 ts p =
        some r ∧ r ≤ 6/10 ∧
      ∀ tp ∈ [((660 : Int), (7 : ℚ)/90), (720, 47/90), (780, 3/10),
        (840, 1/10)], (720 : Int) < tp.1 →
        ∀ r', priceRatioForTimestamp
            [(660, 7/90), (720, 47/90), (780, 3/10), (840, 1/10)] 0
            tp.1 tp.2 = some r' →
          r' ≤ 6/10 → ts ≤ tp.1 :=
  claim_C4.1 [(660, 7/90), (720, 47/90), (780, 3/10), (840, 1/10)] 720 0
    (6/10)
    ⟨(780, 3/10), by simp, by norm_num,
      1/2, exampleSeries_ratio780, by norm_num⟩

theorem flatSeries_range780 :
    priceRangeForTimestamp [(780, 1), (840, 1)] 0 780 = some (1, 1) := by
  norm_num [priceRangeForTimestamp, epochDay, List.filterMap, min_def, max_def]

theorem flatSeries_range840 :
    priceRangeForTimestamp [(780, 1), (840, 1)] 0 840 = some (1, 1) := by
  norm_num [priceRangeForTimestamp, epochDay, List.filterMap, min_def, max_def]

/-- On a flat day every hour's ratio is exactly 0.6. -/
theorem flatSeries_ratio780 :
    priceRatioForTimestamp [(780, 1), (840, 1)] 0 780 1 = some (6/10) := by
  rw [priceRatioForTimestamp, flatSeries_range780]
  norm_num

/-- On a flat day every hour's ratio is exactly 0.6. -/
theorem flatSeries_ratio840 :
    priceRatioForTimestamp [(780, 1), (840, 1)] 0 840 1 = some (6/10) := by
  rw [priceRatioForTimestamp, flatSeries_range840]
  norm_num

/-- Witness for C1's fallback clause: a flat-price future series under the
cheap target has no qualifying entry (flat-day ratio 0.6 > 0.4), so the
returned entry is the (price, timestamp)-lexicographically minimal future
one. -/
theorem claim_C1_witness :
    ∃ ts : Int, ∃ p r : ℚ,
      nextTargetPrice [(780, 1), (840, 1)] 720
        (some (targetMaxRatio Target.cheap)) 0 = some (ts, p, r) ∧
      (ts, p) ∈ [((780 : Int), (1 : ℚ)), (840, 1)] ∧ (720 : Int) < ts ∧
      priceRatioForTimestamp [(780, 1), (840, 1)] 0 ts p = some r ∧
      ∀ tp ∈ [((780 : Int), (1 : ℚ)), (840, 1)], (720 : Int) < tp.1 →
        (p < tp.2 ∨ (p = tp.2 ∧ ts ≤ tp.1)) :=
  (claim_C1 [(780, 1), (840, 1)] 720 0 Target.cheap).2
    (by
      rintro ⟨⟨ts, p⟩, hmem, hn, r, hr, hle⟩
      simp only [List.mem_cons, List.not_mem_nil, or_false,
        Prod.mk.injEq] at hmem
      rcases hmem with ⟨rfl, rfl⟩ | ⟨rfl, rfl⟩
      · rw [flatSeries_ratio780] at hr
        injection hr with hr'
        subst hr'
        norm_num [targetMaxRatio] at hle
      · rw [flatSeries_ratio840] at hr
        injection hr with hr'
        subst hr'
        norm_num [targetMaxRatio] at hle)
    ⟨(780, 1), by simp, by norm_num⟩

end PvpcSpec
